import Mathlib

/-!
Verification of the CBC (Carrier Board Communication) link-layer protocol
stack of `hw/platform/ioc_cbc.c`: ring buffer, checksum, deframer state
machine, framer, signal filtering, invalidation, heartbeat and wakeup-reason
handling.

Byte buffers are embedded as functions `Nat → Nat` holding byte values; the
C `x & (CBC_RING_BUFFER_SIZE - 1)` index wrap is written `% CBC_RING_BUFFER_SIZE`
(equal, since the ring capacity is a power of two and the wrapped quantities
are non-negative).
-/

namespace IocCbc

/-! ### Protocol constants

Modelled from the spec: the numeric protocol constants come from the header
`ioc.h`, which is not part of the sources; the spec fixes the layout (one SOF
byte, one packed extension/length/sequence byte, one address byte, one
service-command byte, trailing checksum byte, granularity-4 padding, the
`(L+1)*4` payload-length encoding) and leaves the bit widths and size limits
configuration-defined, so consistent concrete values are chosen here. -/

def CBC_RING_BUFFER_SIZE : Nat := 256
def CBC_SOF_VALUE : Nat := 0x05
def CBC_EXT_VALUE : Nat := 0x00

def CBC_SOF_POS : Nat := 0
def CBC_ELS_POS : Nat := 1
def CBC_ADDR_POS : Nat := 2
def CBC_SRV_POS : Nat := 3
def CBC_PAYLOAD_POS : Nat := 4

def CBC_EXT_OFFSET : Nat := 6
def CBC_EXT_MASK : Nat := 0x03
def CBC_LEN_OFFSET : Nat := 3
def CBC_LEN_MASK : Nat := 0x07
def CBC_SEQ_OFFSET : Nat := 0
def CBC_SEQ_MASK : Nat := 0x07

def CBC_MUX_OFFSET : Nat := 3
def CBC_MUX_MASK : Nat := 0x1F
def CBC_PRIO_OFFSET : Nat := 0
def CBC_PRIO_MASK : Nat := 0x07

def CBC_LINK_HDR_SIZE : Nat := 3
def CBC_ADDR_HDR_SIZE : Nat := 1
def CBC_SRV_HDR_SIZE : Nat := 1
def CBC_CHKSUM_SIZE : Nat := 1
def CBC_GRANULARITY : Nat := 4
def CBC_LEN_UNIT : Nat := 4

def CBC_MIN_FRAME_SIZE : Nat := 8
def CBC_MAX_FRAME_SIZE : Nat := 96
def CBC_MAX_SERVICE_SIZE : Nat := 32

def CBC_PRIO_HIGH : Nat := 3
def CBC_PRIO_MEDIUM : Nat := 2
def CBC_PRIO_LOW : Nat := 1

/-- Modelled from the spec: logical channel ids (`enum ioc_ch_id` in the
missing header); distinct small values within the mux mask. -/
def IOC_NATIVE_PMT : Nat := 0
def IOC_NATIVE_LFCC : Nat := 1
def IOC_NATIVE_SIGNAL : Nat := 2
def IOC_NATIVE_DLT : Nat := 3
def IOC_NATIVE_DIAG : Nat := 4
def IOC_NATIVE_RAW0 : Nat := 5
def IOC_NATIVE_RAW11 : Nat := 16
def IOC_VIRTUAL_UART : Nat := 17

/-- Modelled from the spec: request types, queue types, signal flags,
heartbeat commands, service commands and wakeup-reason bits from the missing
header; values are only compared for (in)equality by the code. -/
def CBC_REQ_T_PROT : Nat := 0
def CBC_REQ_T_SOC : Nat := 1
def CBC_QUEUE_T_RX : Nat := 0
def CBC_QUEUE_T_TX : Nat := 1
def CBC_ACTIVE : Nat := 1
def CBC_INACTIVE : Nat := 0
def CBC_HB_ACTIVE : Nat := 2
def CBC_HB_STANDBY : Nat := 4
def CBC_HB_INITIAL : Nat := 5
def CBC_SC_WK_RSN : Nat := 1
def CBC_SC_HB : Nat := 2
def CBC_SD_SINGLE_SIGNAL : Nat := 1
def CBC_SD_MULTI_SIGNAL : Nat := 2
def CBC_SD_GROUP_SIGNAL : Nat := 3
def CBC_INVAL_T_SIGNAL : Nat := 0
def CBC_INVAL_T_GROUP : Nat := 1
def CBC_WK_RSN_SOC : Nat := 0x800000
def CBC_WK_RSN_ALL : Nat := 0xFFFFFF

/-! ### Byte buffers -/

/-- Pointwise update of a byte buffer (one C array store). -/
def upd (f : Nat → Nat) (i v : Nat) : Nat → Nat :=
  fun j => if j = i then v else f j

@[simp] theorem upd_same (f : Nat → Nat) (i v : Nat) : upd f i v i = v := by
  simp [upd]

theorem upd_other (f : Nat → Nat) (i v j : Nat) (h : j ≠ i) :
    upd f i v j = f j := by
  simp [upd, h]

/-! ### Ring buffer (`struct cbc_ring`) -/

structure CbcRing where
  head : Nat
  tail : Nat
  buf : Nat → Nat

/-- Well-formedness: both cursors lie below the capacity (C type invariant of
the masked cursor updates). -/
def ringWF (r : CbcRing) : Prop :=
  r.head < CBC_RING_BUFFER_SIZE ∧ r.tail < CBC_RING_BUFFER_SIZE

instance (r : CbcRing) : Decidable (ringWF r) := by
  unfold ringWF; infer_instance

/-- Occupied byte count, as computed at the top of `cbc_unpack_link`
(`avalids = tail - head; avalids = avalids >= 0 ? avalids : SIZE + avalids`). -/
def cbc_avalids (r : CbcRing) : Nat :=
  if r.head ≤ r.tail then r.tail - r.head
  else CBC_RING_BUFFER_SIZE + r.tail - r.head

/-- `cbc_copy_to_ring`: byte-at-a-time append; returns -1 and stops as soon
as the next write position would collide with `head`. -/
def cbc_copy_to_ring : List Nat → CbcRing → Int × CbcRing
  | [], ring => (0, ring)
  | b :: rest, ring =>
    let pos := (ring.tail + 1) % CBC_RING_BUFFER_SIZE
    if pos ≠ ring.head then
      cbc_copy_to_ring rest { ring with buf := upd ring.buf ring.tail b, tail := pos }
    else
      (-1, ring)

/-- `cbc_ring_skips`: drop `bytes` bytes from the ring buffer head. -/
def cbc_ring_skips (ring : CbcRing) (bytes : Nat) : CbcRing :=
  { ring with head := (ring.head + bytes) % CBC_RING_BUFFER_SIZE }

/-! ### Checksum -/

/-- The shared accumulation `value += 0x100 - byte` over a 16-bit unsigned
accumulator, reading byte `i` through `data`. -/
def chkFold (data : Nat → Nat) (size : Nat) : Nat :=
  (List.range size).foldl (fun v i => (v + (0x100 - data i)) % 65536) 0

/-- `cbc_cal_chksum`: 16-bit accumulator of `0x100 - data[i]` over `size`
bytes of a flat buffer. -/
def cbc_cal_chksum (data : Nat → Nat) (size : Nat) : Nat :=
  chkFold data size

/-- `cbc_verify_chksum`: same accumulation over `size` ring bytes starting at
`head`; returns 0 iff the low byte equals `c`. -/
def cbc_verify_chksum (ring : CbcRing) (size : Nat) (c : Nat) : Int :=
  let value := chkFold (fun i => ring.buf ((ring.head + i) % CBC_RING_BUFFER_SIZE)) size
  if value &&& 0xFF = c then 0 else -1

/-! ### Padding (`cbc_fill_padding`) -/

/-- `cbc_fill_padding`: round `size` up to a multiple of `unit`, filling
positions from `size - CBC_CHKSUM_SIZE` up to the padded length with `0xFF`
when padding is needed; returns the padded length and the updated buffer. -/
def cbc_fill_padding (buf : Nat → Nat) (size unit : Nat) : Nat × (Nat → Nat) :=
  let left := size % unit
  if left ≠ 0 then
    let paddings := size + unit - left
    (paddings,
      fun i => if size - CBC_CHKSUM_SIZE ≤ i ∧ i < paddings then 0xFF else buf i)
  else
    (size, buf)

/-! ### Signal / group / whitelist tables -/

structure CbcSignal where
  id : Nat
  len : Nat
  flag : Nat
  deriving DecidableEq

structure CbcGroup where
  id : Nat
  flag : Nat
  deriving DecidableEq

structure CbcConfig where
  cbc_sig_tbl : List CbcSignal
  cbc_grp_tbl : List CbcGroup
  wlist_sig_tbl : List Nat
  wlist_grp_tbl : List Nat
  deriving DecidableEq

/-- `cbc_find_signal`: first table entry with the given id. -/
def cbc_find_signal (id : Nat) : List CbcSignal → Option CbcSignal
  | [] => none
  | s :: rest => if id = s.id then some s else cbc_find_signal id rest

/-- `cbc_find_signal_group`: first group entry with the given id. -/
def cbc_find_signal_group (id : Nat) : List CbcGroup → Option CbcGroup
  | [] => none
  | g :: rest => if id = g.id then some g else cbc_find_signal_group id rest

/-- `cbc_get_signal_len`: 0 if the id is not in the table, else the byte
length `(bit_len + 7) / 8`. -/
def cbc_get_signal_len (id : Nat) (table : List CbcSignal) : Nat :=
  match cbc_find_signal id table with
  | none => 0
  | some p => (p.len + 7) / 8

/-- `cbc_disable_signal`: set the flag of the first entry with the given id
to `CBC_INACTIVE` (the C code mutates the entry `cbc_find_signal` returns). -/
def cbc_disable_signal (id : Nat) : List CbcSignal → List CbcSignal
  | [] => []
  | s :: rest =>
    if id = s.id then { s with flag := CBC_INACTIVE } :: rest
    else s :: cbc_disable_signal id rest

/-- `cbc_disable_signal_group`: same for the group table. -/
def cbc_disable_signal_group (id : Nat) : List CbcGroup → List CbcGroup
  | [] => []
  | g :: rest =>
    if id = g.id then { g with flag := CBC_INACTIVE } :: rest
    else g :: cbc_disable_signal_group id rest

/-- `wlist_verify_signal`: whitelist check, a stub in the source
(`/* TODO: implementation */ return 0;`): every id passes. -/
def wlist_verify_signal (_id : Nat) (_list : List Nat) : Int := 0

/-- `wlist_verify_group`: whitelist check for groups, also a stub. -/
def wlist_verify_group (_id : Nat) (_list : List Nat) : Int := 0

/-! ### Requests and packets -/

/-- `struct cbc_request` (the fields the CBC stack reads and writes). -/
structure CbcRequest where
  id : Nat
  rtype : Nat
  srv_len : Nat
  link_len : Nat
  buf : Nat → Nat

/-- `struct cbc_pkt`: a request plus session-level state and configuration. -/
structure CbcPkt where
  req : CbcRequest
  qtype : Nat
  hb_state : Nat
  soc_active : Nat
  reason : Nat
  boot_reason : Nat
  cfg : CbcConfig

/-- One call of the external transport primitive `ioc_ch_xmit(id, data, len)`:
the channel and the `len` bytes handed over. -/
structure CbcXmit where
  ch : Nat
  data : List Nat

/-! ### Framer (`cbc_pack_address`, `cbc_pack_link`, `cbc_send_pkt`)

The C `static size_t tx_seq_counter` of `cbc_pack_link` is passed and
returned explicitly. -/

/-- `cbc_pack_address`: pack channel mux and priority into the address byte. -/
def cbc_pack_address (req : CbcRequest) : CbcRequest :=
  let mux := req.id
  let prio :=
    if mux = IOC_NATIVE_PMT ∨ mux = IOC_NATIVE_LFCC ∨ mux = IOC_NATIVE_SIGNAL ∨
        mux = IOC_NATIVE_DLT then CBC_PRIO_HIGH
    else if mux = IOC_NATIVE_DIAG then CBC_PRIO_LOW
    else CBC_PRIO_MEDIUM
  let buf := upd req.buf CBC_ADDR_POS ((mux &&& CBC_MUX_MASK) <<< CBC_MUX_OFFSET)
  let buf := upd buf CBC_ADDR_POS
      (buf CBC_ADDR_POS ||| ((prio &&& CBC_PRIO_MASK) <<< CBC_PRIO_OFFSET))
  { req with buf := buf }

/-- `cbc_pack_link`: abort if `srv_len` exceeds the maximum service size;
otherwise pad, write SOF, the extension/length/sequence byte and the trailing
checksum, record the padded length in `link_len` and bump the tx sequence. -/
def cbc_pack_link (req : CbcRequest) (tx_seq : Nat) : CbcRequest × Nat :=
  if req.srv_len > CBC_MAX_SERVICE_SIZE then
    (req, tx_seq)
  else
    let len := req.srv_len + CBC_ADDR_HDR_SIZE + CBC_LINK_HDR_SIZE
    let pad := cbc_fill_padding req.buf len CBC_GRANULARITY
    let len := pad.1
    let buf := pad.2
    let buf := upd buf CBC_SOF_POS CBC_SOF_VALUE
    let buf := upd buf CBC_ELS_POS ((CBC_EXT_VALUE &&& CBC_EXT_MASK) <<< CBC_EXT_OFFSET)
    let buf := upd buf CBC_ELS_POS
        (buf CBC_ELS_POS |||
          ((((req.srv_len - 1) / CBC_LEN_UNIT) &&& CBC_LEN_MASK) <<< CBC_LEN_OFFSET))
    let buf := upd buf CBC_ELS_POS
        (buf CBC_ELS_POS ||| ((tx_seq &&& CBC_SEQ_MASK) <<< CBC_SEQ_OFFSET))
    let checksum := cbc_cal_chksum buf (len - 1)
    let buf := upd buf (len - 1) (checksum &&& 0xFF)
    ({ req with buf := buf, link_len := len }, (tx_seq + 1) &&& CBC_SEQ_MASK)

/-- `cbc_send_pkt`: `link_len = 0` means the packet still needs address and
link packing and goes to the virtual UART; otherwise the service bytes go to
the packet's own channel.  The transmitted bytes are returned as a `CbcXmit`. -/
def cbc_send_pkt (pkt : CbcPkt) (tx_seq : Nat) : CbcPkt × Nat × CbcXmit :=
  if pkt.req.link_len = 0 then
    let req := cbc_pack_address pkt.req
    let packed := cbc_pack_link req tx_seq
    let req := packed.1
    ({ pkt with req := req }, packed.2,
      ⟨IOC_VIRTUAL_UART, (List.range req.link_len).map req.buf⟩)
  else
    (pkt, tx_seq,
      ⟨pkt.req.id, (List.range pkt.req.srv_len).map (fun i => pkt.req.buf (CBC_SRV_POS + i))⟩)

/-! ### Deframer (`cbc_unpack_link`)

The C `static int remains, rx_seq_counter` are explicit state; the external
collaborator `ioc_build_request` is modelled below.  The unbounded C
`for (;;)` loop becomes a fuel-indexed iteration; termination within the
fixed fuel is proved (claim C2). -/

/-- Modelled from the spec: `ioc_build_request(ioc, frame_len, len)` is not
part of the sources; per the spec it emits a decoded request for the consumed
frame (length `frame_len`, payload length `len`) to the request-construction
collaborator, for downstream processing as a protocol request. -/
def ioc_build_request (ring : CbcRing) (frame_len len : Nat) : CbcRequest :=
  { id := 0
    rtype := CBC_REQ_T_PROT
    srv_len := len
    link_len := frame_len
    buf := fun i =>
      if i < frame_len then ring.buf ((ring.head + i) % CBC_RING_BUFFER_SIZE) else 0 }

structure UnpackState where
  ring : CbcRing
  remains : Nat
  rx_seq : Nat
  emitted : List CbcRequest

/-- One iteration of the `for (;;)` body of `cbc_unpack_link`:
`none` means the loop breaks, `some s'` means it continues with `s'`. -/
def cbc_unpack_step (s : UnpackState) : Option UnpackState :=
  let avalids := cbc_avalids s.ring
  if avalids < CBC_MIN_FRAME_SIZE ∨ avalids < s.remains then
    none
  else
    let s := { s with remains := 0 }
    if s.ring.buf s.ring.head ≠ CBC_SOF_VALUE then
      some { s with ring := cbc_ring_skips s.ring 1 }
    else
      let els_pos := (s.ring.head + CBC_ELS_POS) % CBC_RING_BUFFER_SIZE
      let els := s.ring.buf els_pos
      let len := (((els >>> CBC_LEN_OFFSET) &&& CBC_LEN_MASK) + 1) * 4
      let seq := (els >>> CBC_SEQ_OFFSET) &&& CBC_SEQ_MASK
      let frame_len := len + CBC_LINK_HDR_SIZE + CBC_ADDR_HDR_SIZE
      if frame_len > CBC_MAX_FRAME_SIZE then
        some { s with ring := cbc_ring_skips s.ring 1 }
      else if avalids < frame_len then
        some { s with remains := frame_len }
      else
        let chksum_pos := (s.ring.head + frame_len - 1) % CBC_RING_BUFFER_SIZE
        let checksum := s.ring.buf chksum_pos
        if cbc_verify_chksum s.ring (frame_len - 1) checksum ≠ 0 then
          some { s with ring := cbc_ring_skips s.ring 1 }
        else
          let rx1 := (s.rx_seq + 1) &&& CBC_SEQ_MASK
          let rx2 := if rx1 ≠ seq then seq else rx1
          some { s with
                 rx_seq := rx2
                 emitted := s.emitted ++ [ioc_build_request s.ring frame_len len]
                 ring := cbc_ring_skips s.ring frame_len }

/-- Iterate `cbc_unpack_step` up to `fuel` times, stopping at a break. -/
def cbc_unpack_run : Nat → UnpackState → UnpackState
  | 0, s => s
  | fuel + 1, s =>
    match cbc_unpack_step s with
    | none => s
    | some s' => cbc_unpack_run fuel s'

/-- `cbc_unpack_link`: run the loop; the fuel `2 * CBC_RING_BUFFER_SIZE + 2`
dominates `2 * avalids + 2`, which is shown sufficient. -/
def cbc_unpack_link (s : UnpackState) : UnpackState :=
  cbc_unpack_run (2 * CBC_RING_BUFFER_SIZE + 2) s

/-- The address-header parsing and channel-id assignment step of
`cbc_rx_handler` (the request-type guard and the mux extraction); the
subsequent per-channel dispatch hands the packet to the handlers modelled
separately and is not needed for the decoded-request claims.
`none` models the silent drop of non-protocol requests. -/
def cbc_rx_handler_mux (pkt : CbcPkt) : Option CbcPkt :=
  if pkt.req.rtype ≠ CBC_REQ_T_PROT then none
  else
    let mux := (pkt.req.buf CBC_ADDR_POS >>> CBC_MUX_OFFSET) &&& CBC_MUX_MASK
    some { pkt with req := { pkt.req with id := mux } }

/-! ### Invalidation (`cbc_set_invalidation`) -/

/-- `cbc_set_invalidation`: reject if `num * 2 + 2 >= CBC_MAX_SERVICE_SIZE`,
else disable each of the `num` ids read little-endian from the payload in the
signal or group table according to `type`. -/
def cbc_set_invalidation (pkt : CbcPkt) (type : Nat) : CbcPkt :=
  let payload := fun i => pkt.req.buf (CBC_PAYLOAD_POS + i)
  let num := payload 1
  if num * 2 + 2 ≥ CBC_MAX_SERVICE_SIZE then
    pkt
  else
    let ids := (List.range num).map (fun i => payload (i * 2 + 2) ||| payload (i * 2 + 3) <<< 8)
    if type = CBC_INVAL_T_SIGNAL then
      { pkt with cfg :=
        { pkt.cfg with cbc_sig_tbl := ids.foldl (fun t id => cbc_disable_signal id t) pkt.cfg.cbc_sig_tbl } }
    else if type = CBC_INVAL_T_GROUP then
      { pkt with cfg :=
        { pkt.cfg with cbc_grp_tbl := ids.foldl (fun t id => cbc_disable_signal_group id t) pkt.cfg.cbc_grp_tbl } }
    else
      pkt

/-! ### Multi-signal forwarding (`cbc_forward_signals`) -/

/-- The inner compaction copy
`for (j = 0; j < signal_len; j++, valids++) payload[valids] = payload[offset + j];`
over the payload region of the request buffer (indices are payload offsets). -/
def cbc_compact_copy : (Nat → Nat) → Nat → Nat → Nat → (Nat → Nat) × Nat
  | payload, valids, _offset, 0 => (payload, valids)
  | payload, valids, offset, j + 1 =>
    cbc_compact_copy (upd payload valids (payload offset)) (valids + 1) (offset + 1) j

/-- The entry loop of `cbc_forward_signals`.  `count` is the remaining
iteration count (`payload[0]` at entry — never overwritten inside the loop,
since writes go to `payload[valids]` with `valids ≥ 1`).  Returns the payload,
`valids`, `num` and whether the loop ran to completion (`false` models the
early `return` on the offset safety check, which skips the send). -/
def cbc_forward_loop (cfg : CbcConfig) :
    Nat → (Nat → Nat) → Nat → Nat → Nat → (Nat → Nat) × Nat × Nat × Bool
  | 0, payload, _offset, valids, num => (payload, valids, num, true)
  | i + 1, payload, offset, valids, num =>
    let id := payload offset ||| payload (offset + 1) <<< 8
    let signal_len := cbc_get_signal_len id cfg.cbc_sig_tbl + 2
    let step :=
      if wlist_verify_signal id cfg.wlist_sig_tbl = 0 then
        if valids < offset then
          let c := cbc_compact_copy payload valids offset signal_len
          (c.1, c.2, num + 1)
        else
          (payload, valids + signal_len, num + 1)
      else
        (payload, valids, num)
    let offset := offset + signal_len
    if offset + 1 > CBC_MAX_SERVICE_SIZE then
      (step.1, step.2.1, step.2.2, false)
    else
      cbc_forward_loop cfg i step.1 offset step.2.1 step.2.2

/-- `cbc_forward_signals`: walk the multi-signal payload, compact permitted
entries in place, and if any survived rewrite the count byte, mark the service
command as multi-signal, set `srv_len` and send. -/
def cbc_forward_signals (pkt : CbcPkt) (tx_seq : Nat) : CbcPkt × Nat × Option CbcXmit :=
  let payload := fun i => pkt.req.buf (CBC_PAYLOAD_POS + i)
  let res := cbc_forward_loop pkt.cfg (payload 0) payload 1 1 0
  let payload := res.1
  let valids := res.2.1
  let num := res.2.2.1
  let completed := res.2.2.2
  let buf := fun i =>
    if CBC_PAYLOAD_POS ≤ i then payload (i - CBC_PAYLOAD_POS) else pkt.req.buf i
  if completed then
    if num > 0 then
      let buf := upd buf CBC_PAYLOAD_POS num
      let buf := upd buf CBC_SRV_POS CBC_SD_MULTI_SIGNAL
      let pkt := { pkt with req :=
        { pkt.req with buf := buf, srv_len := valids + CBC_SRV_HDR_SIZE } }
      let sent := cbc_send_pkt pkt tx_seq
      (sent.1, sent.2.1, some sent.2.2)
    else
      ({ pkt with req := { pkt.req with buf := buf } }, tx_seq, none)
  else
    ({ pkt with req := { pkt.req with buf := buf } }, tx_seq, none)

/-! ### Heartbeat and wakeup reason -/

/-- `cbc_update_heartbeat`: active/standby/initial map to state 1, everything
else to 0; on a state change, synthesize a SoC-state-update request routed to
the tx queue and record the new state. -/
def cbc_update_heartbeat (pkt : CbcPkt) (cmd _sus_action : Nat) : CbcPkt :=
  let stat :=
    if cmd = CBC_HB_ACTIVE ∨ cmd = CBC_HB_STANDBY ∨ cmd = CBC_HB_INITIAL then 1 else 0
  if stat ≠ pkt.hb_state then
    { pkt with
      qtype := CBC_QUEUE_T_TX
      req := { pkt.req with rtype := CBC_REQ_T_SOC, buf := upd pkt.req.buf 0 stat }
      hb_state := stat }
  else
    pkt

/-- `cbc_update_wakeup_reason`: adjust the SoC bit and boot reason, mask to
24 bits, let a pending boot reason override, write the three reason bytes
(uint8 stores, hence `% 256`), force the lifecycle channel, fill the service
header and send immediately. -/
def cbc_update_wakeup_reason (pkt : CbcPkt) (reason : Nat) (tx_seq : Nat) :
    CbcPkt × Nat × CbcXmit :=
  let pr :=
    if pkt.soc_active ≠ 0 then
      ({ pkt with boot_reason := 0 }, reason ||| CBC_WK_RSN_SOC)
    else
      (pkt, reason &&& (0xFFFFFFFF ^^^ CBC_WK_RSN_SOC))
  let pkt := pr.1
  let reason := pr.2 &&& CBC_WK_RSN_ALL
  let reason := if pkt.boot_reason ≠ 0 then pkt.boot_reason else reason
  let pkt := { pkt with reason := reason }
  let buf := pkt.req.buf
  let buf := upd buf CBC_PAYLOAD_POS (reason % 256)
  let buf := upd buf (CBC_PAYLOAD_POS + 1) (reason >>> 8 % 256)
  let buf := upd buf (CBC_PAYLOAD_POS + 2) (reason >>> 16 % 256)
  let buf := upd buf CBC_SRV_POS CBC_SC_WK_RSN
  let pkt := { pkt with req :=
    { pkt.req with id := IOC_NATIVE_LFCC, buf := buf, srv_len := 4, link_len := 0 } }
  cbc_send_pkt pkt tx_seq

/-! ### Ring buffer lemmas -/

theorem cbc_avalids_lt (r : CbcRing) (h : ringWF r) :
    cbc_avalids r < CBC_RING_BUFFER_SIZE := by
  rcases h with ⟨h1, h2⟩
  unfold cbc_avalids CBC_RING_BUFFER_SIZE at *
  split_ifs <;> omega

theorem cbc_ring_skips_spec (r : CbcRing) (n : Nat) (hwf : ringWF r)
    (hn : n ≤ cbc_avalids r) :
    ringWF (cbc_ring_skips r n) ∧ (cbc_ring_skips r n).tail = r.tail ∧
    (cbc_ring_skips r n).buf = r.buf ∧
    cbc_avalids (cbc_ring_skips r n) = cbc_avalids r - n := by
  have hav := cbc_avalids_lt r hwf
  rcases hwf with ⟨h1, h2⟩
  have hmod : (r.head + n) % CBC_RING_BUFFER_SIZE =
      if r.head + n < CBC_RING_BUFFER_SIZE then r.head + n
      else r.head + n - CBC_RING_BUFFER_SIZE := by
    split_ifs with hc
    · exact Nat.mod_eq_of_lt hc
    · rw [Nat.mod_eq_sub_mod (by omega)]
      apply Nat.mod_eq_of_lt
      unfold cbc_avalids CBC_RING_BUFFER_SIZE at *
      split_ifs at hn <;> omega
  refine ⟨⟨?_, h2⟩, rfl, rfl, ?_⟩
  · show (r.head + n) % CBC_RING_BUFFER_SIZE < CBC_RING_BUFFER_SIZE
    exact Nat.mod_lt _ (by unfold CBC_RING_BUFFER_SIZE; omega)
  · show (if (r.head + n) % CBC_RING_BUFFER_SIZE ≤ r.tail then
        r.tail - (r.head + n) % CBC_RING_BUFFER_SIZE
      else CBC_RING_BUFFER_SIZE + r.tail - (r.head + n) % CBC_RING_BUFFER_SIZE) =
      cbc_avalids r - n
    rw [hmod]
    unfold cbc_avalids CBC_RING_BUFFER_SIZE at *
    split_ifs at hn hav ⊢ <;> omega

theorem cbc_ring_tail_eq (r : CbcRing) (h : ringWF r) :
    (r.head + cbc_avalids r) % CBC_RING_BUFFER_SIZE = r.tail := by
  rcases h with ⟨h1, h2⟩
  unfold cbc_avalids CBC_RING_BUFFER_SIZE at *
  split_ifs with hc
  · rw [Nat.add_sub_cancel' hc]
    exact Nat.mod_eq_of_lt h2
  · have he : r.head + (256 + r.tail - r.head) = 256 + r.tail := by omega
    rw [he, Nat.add_mod_left]
    exact Nat.mod_eq_of_lt h2

theorem cbc_ring_full_iff (r : CbcRing) (h : ringWF r) :
    (r.tail + 1) % CBC_RING_BUFFER_SIZE = r.head ↔
      cbc_avalids r = CBC_RING_BUFFER_SIZE - 1 := by
  rcases h with ⟨h1, h2⟩
  unfold cbc_avalids CBC_RING_BUFFER_SIZE at *
  have hm : (r.tail + 1) % 256 =
      if r.tail + 1 < 256 then r.tail + 1 else r.tail + 1 - 256 := by
    split_ifs with hc
    · exact Nat.mod_eq_of_lt hc
    · rw [Nat.mod_eq_sub_mod (by omega)]
      exact Nat.mod_eq_of_lt (by omega)
  rw [hm]
  split_ifs <;> omega

theorem cbc_avalids_push (r : CbcRing) (f : Nat → Nat) (h : ringWF r)
    (hne : (r.tail + 1) % CBC_RING_BUFFER_SIZE ≠ r.head) :
    cbc_avalids ⟨r.head, (r.tail + 1) % CBC_RING_BUFFER_SIZE, f⟩ =
      cbc_avalids r + 1 := by
  rcases h with ⟨h1, h2⟩
  unfold cbc_avalids CBC_RING_BUFFER_SIZE at *
  dsimp only
  have hm : (r.tail + 1) % 256 =
      if r.tail + 1 < 256 then r.tail + 1 else r.tail + 1 - 256 := by
    split_ifs with hc
    · exact Nat.mod_eq_of_lt hc
    · rw [Nat.mod_eq_sub_mod (by omega)]
      exact Nat.mod_eq_of_lt (by omega)
  rw [hm] at hne ⊢
  split_ifs at hne ⊢ <;> omega

theorem cbc_copy_to_ring_spec (bs : List Nat) (r : CbcRing) (h : ringWF r) :
    ringWF (cbc_copy_to_ring bs r).2 ∧ (cbc_copy_to_ring bs r).2.head = r.head ∧
    (∀ i < cbc_avalids r,
      (cbc_copy_to_ring bs r).2.buf ((r.head + i) % CBC_RING_BUFFER_SIZE) =
        r.buf ((r.head + i) % CBC_RING_BUFFER_SIZE)) ∧
    (if cbc_avalids r + bs.length ≤ CBC_RING_BUFFER_SIZE - 1 then
       (cbc_copy_to_ring bs r).1 = 0 ∧
         cbc_avalids (cbc_copy_to_ring bs r).2 = cbc_avalids r + bs.length
     else
       (cbc_copy_to_ring bs r).1 = -1 ∧
         cbc_avalids (cbc_copy_to_ring bs r).2 = CBC_RING_BUFFER_SIZE - 1) := by
  induction bs generalizing r with
  | nil =>
    have hlt := cbc_avalids_lt r h
    refine ⟨h, rfl, fun i _ => rfl, ?_⟩
    rw [if_pos (by simp only [List.length_nil]; omega)]
    exact ⟨rfl, by simp only [cbc_copy_to_ring, List.length_nil, Nat.add_zero]⟩
  | cons b rest ih =>
    by_cases hfull : (r.tail + 1) % CBC_RING_BUFFER_SIZE = r.head
    · have hav : cbc_avalids r = CBC_RING_BUFFER_SIZE - 1 :=
        (cbc_ring_full_iff r h).mp hfull
      have hstep : cbc_copy_to_ring (b :: rest) r = (-1, r) := by
        simp only [cbc_copy_to_ring]
        rw [if_neg (by simpa using hfull)]
      rw [hstep]
      refine ⟨h, rfl, fun i _ => rfl, ?_⟩
      rw [if_neg (by simp only [List.length_cons]; omega)]
      exact ⟨rfl, hav⟩
    · set r2 : CbcRing :=
        ⟨r.head, (r.tail + 1) % CBC_RING_BUFFER_SIZE, upd r.buf r.tail b⟩ with hr2
      have hstep : cbc_copy_to_ring (b :: rest) r = cbc_copy_to_ring rest r2 := by
        simp only [cbc_copy_to_ring]
        rw [if_pos hfull]
      have hwf2 : ringWF r2 := by
        refine ⟨h.1, ?_⟩
        exact Nat.mod_lt _ (by unfold CBC_RING_BUFFER_SIZE; omega)
      have hav2 : cbc_avalids r2 = cbc_avalids r + 1 :=
        cbc_avalids_push r _ h hfull
      have hpres2 : ∀ i < cbc_avalids r,
          r2.buf ((r.head + i) % CBC_RING_BUFFER_SIZE) =
            r.buf ((r.head + i) % CBC_RING_BUFFER_SIZE) := by
        intro i hi
        have htail := cbc_ring_tail_eq r h
        have hne : (r.head + i) % CBC_RING_BUFFER_SIZE ≠ r.tail := by
          intro heq
          rw [← htail] at heq
          have : i % CBC_RING_BUFFER_SIZE = cbc_avalids r % CBC_RING_BUFFER_SIZE :=
            Nat.ModEq.add_left_cancel (Nat.ModEq.refl r.head) heq
          rw [Nat.mod_eq_of_lt (lt_trans hi (cbc_avalids_lt r h)),
            Nat.mod_eq_of_lt (cbc_avalids_lt r h)] at this
          omega
        exact upd_other _ _ _ _ hne
      obtain ⟨ihwf, ihhead, ihpres, ihif⟩ := ih r2 hwf2
      rw [hstep]
      refine ⟨ihwf, ihhead, ?_, ?_⟩
      · intro i hi
        have : i < cbc_avalids r2 := by omega
        rw [show r.head = r2.head from rfl] at *
        rw [ihpres i this, hpres2 i hi]
      · rw [hav2] at ihif
        simp only [List.length_cons]
        split_ifs at ihif ⊢ <;>
          first
            | exact ⟨ihif.1, by omega⟩
            | (exfalso; omega)

/-! ### Interleaved append/skip sequences (claim C4) -/

inductive RingOp where
  | append : List Nat → RingOp
  | skip : Nat → RingOp

/-- Apply a sequence of `cbc_copy_to_ring` / `cbc_ring_skips` operations. -/
def ringRun (r : CbcRing) : List RingOp → CbcRing
  | [] => r
  | RingOp.append bs :: ops => ringRun (cbc_copy_to_ring bs r).2 ops
  | RingOp.skip n :: ops => ringRun (cbc_ring_skips r n) ops

/-- Every skip in the sequence obeys the caller obligation
`n ≤ occupied length` at the point it is executed. -/
def ringLegal (r : CbcRing) : List RingOp → Bool
  | [] => true
  | RingOp.append bs :: ops => ringLegal (cbc_copy_to_ring bs r).2 ops
  | RingOp.skip n :: ops => decide (n ≤ cbc_avalids r) && ringLegal (cbc_ring_skips r n) ops

theorem ringRun_wf (ops : List RingOp) (r : CbcRing) (hwf : ringWF r)
    (hlegal : ringLegal r ops = true) : ringWF (ringRun r ops) := by
  induction ops generalizing r with
  | nil => exact hwf
  | cons op ops ih =>
    cases op with
    | append bs =>
      simp only [ringRun, ringLegal] at hlegal ⊢
      exact ih _ (cbc_copy_to_ring_spec bs r hwf).1 hlegal
    | skip n =>
      simp only [ringRun, ringLegal, Bool.and_eq_true, decide_eq_true_eq] at hlegal ⊢
      exact ih _ (cbc_ring_skips_spec r n hwf hlegal.1).1 hlegal.2

/-- C4: for every interleaved sequence of `cbc_copy_to_ring` appends and
`cbc_ring_skips` calls on a well-formed ring (every skip obeying
`n ≤ occupied length`), the occupied length stays within `[0, capacity - 1]`
(it is a `Nat`, hence never negative), and a further append never overwrites
an unread byte: the occupied region is preserved, the occupied length never
exceeds `capacity - 1`, the append succeeds completely iff it fits, and
otherwise it returns the overflow error `-1` having stopped exactly at the
full mark, retaining the bytes already copied. -/
theorem claim_C4_ring_invariant (r : CbcRing) (ops : List RingOp) (hwf : ringWF r)
    (hlegal : ringLegal r ops = true) :
    ringWF (ringRun r ops) ∧
    cbc_avalids (ringRun r ops) ≤ CBC_RING_BUFFER_SIZE - 1 ∧
    ∀ bs : List Nat,
      (∀ i < cbc_avalids (ringRun r ops),
        (cbc_copy_to_ring bs (ringRun r ops)).2.buf
            (((ringRun r ops).head + i) % CBC_RING_BUFFER_SIZE) =
          (ringRun r ops).buf (((ringRun r ops).head + i) % CBC_RING_BUFFER_SIZE)) ∧
      cbc_avalids (cbc_copy_to_ring bs (ringRun r ops)).2 ≤ CBC_RING_BUFFER_SIZE - 1 ∧
      (cbc_avalids (ringRun r ops) + bs.length ≤ CBC_RING_BUFFER_SIZE - 1 →
        (cbc_copy_to_ring bs (ringRun r ops)).1 = 0 ∧
        cbc_avalids (cbc_copy_to_ring bs (ringRun r ops)).2 =
          cbc_avalids (ringRun r ops) + bs.length) ∧
      (CBC_RING_BUFFER_SIZE - 1 < cbc_avalids (ringRun r ops) + bs.length →
        (cbc_copy_to_ring bs (ringRun r ops)).1 = -1 ∧
        cbc_avalids (cbc_copy_to_ring bs (ringRun r ops)).2 =
          CBC_RING_BUFFER_SIZE - 1) := by
  have hwfR := ringRun_wf ops r hwf hlegal
  have hltR := cbc_avalids_lt _ hwfR
  refine ⟨hwfR, by omega, fun bs => ?_⟩
  obtain ⟨cwf, chead, cpres, cif⟩ := cbc_copy_to_ring_spec bs (ringRun r ops) hwfR
  have hltC := cbc_avalids_lt _ cwf
  refine ⟨cpres, by omega, ?_, ?_⟩
  · intro hfits
    rwa [if_pos hfits] at cif
  · intro hover
    rwa [if_neg (by omega)] at cif

/-- A concrete ring and operation sequence for the C4 witness. -/
def ring0 : CbcRing := ⟨0, 0, fun _ => 0⟩

def ops0 : List RingOp :=
  [RingOp.append [1, 2, 3, 4, 5], RingOp.skip 2, RingOp.append [6, 7]]

theorem claim_C4_ring_invariant_witness :
    ringWF ring0 ∧ ringLegal ring0 ops0 = true ∧
    (ringWF (ringRun ring0 ops0) ∧
    cbc_avalids (ringRun ring0 ops0) ≤ CBC_RING_BUFFER_SIZE - 1 ∧
    ∀ bs : List Nat,
      (∀ i < cbc_avalids (ringRun ring0 ops0),
        (cbc_copy_to_ring bs (ringRun ring0 ops0)).2.buf
            (((ringRun ring0 ops0).head + i) % CBC_RING_BUFFER_SIZE) =
          (ringRun ring0 ops0).buf
            (((ringRun ring0 ops0).head + i) % CBC_RING_BUFFER_SIZE)) ∧
      cbc_avalids (cbc_copy_to_ring bs (ringRun ring0 ops0)).2 ≤
        CBC_RING_BUFFER_SIZE - 1 ∧
      (cbc_avalids (ringRun ring0 ops0) + bs.length ≤ CBC_RING_BUFFER_SIZE - 1 →
        (cbc_copy_to_ring bs (ringRun ring0 ops0)).1 = 0 ∧
        cbc_avalids (cbc_copy_to_ring bs (ringRun ring0 ops0)).2 =
          cbc_avalids (ringRun ring0 ops0) + bs.length) ∧
      (CBC_RING_BUFFER_SIZE - 1 < cbc_avalids (ringRun ring0 ops0) + bs.length →
        (cbc_copy_to_ring bs (ringRun ring0 ops0)).1 = -1 ∧
        cbc_avalids (cbc_copy_to_ring bs (ringRun ring0 ops0)).2 =
          CBC_RING_BUFFER_SIZE - 1)) :=
  ⟨by decide, by decide, claim_C4_ring_invariant ring0 ops0 (by decide) (by decide)⟩

/-! ### Checksum lemmas (claim C3) -/

theorem chkFold_succ (f : Nat → Nat) (n : Nat) :
    chkFold f (n + 1) = (chkFold f n + (0x100 - f n)) % 65536 := by
  unfold chkFold
  rw [List.range_succ, List.foldl_append]
  rfl

theorem chkFold_lt (f : Nat → Nat) (n : Nat) : chkFold f n < 65536 := by
  cases n with
  | zero => simp [chkFold]
  | succ n =>
    rw [chkFold_succ]
    exact Nat.mod_lt _ (by omega)

theorem chkFold_mod (f : Nat → Nat) (n : Nat) :
    chkFold f n % 256 = (∑ i ∈ Finset.range n, (0x100 - f i)) % 256 := by
  induction n with
  | zero => rfl
  | succ n ih =>
    rw [chkFold_succ, Finset.sum_range_succ,
      Nat.mod_mod_of_dvd _ (by norm_num : (256 : Nat) ∣ 65536),
      Nat.add_mod, ih, ← Nat.add_mod]

theorem chkFold_congr (f g : Nat → Nat) (n : Nat) (h : ∀ i < n, f i = g i) :
    chkFold f n = chkFold g n := by
  induction n with
  | zero => rfl
  | succ n ih =>
    rw [chkFold_succ, chkFold_succ, ih (fun i hi => h i (by omega)), h n (by omega)]

theorem and_255_eq_mod (x : Nat) : x &&& 255 = x % 256 :=
  Nat.and_pow_two_sub_one_eq_mod x 8

/-- `cbc_verify_chksum` succeeds exactly when the additive checksum of the
`size` ring bytes starting at `head`, reduced mod 256, equals `c`. -/
theorem cbc_verify_chksum_iff (ring : CbcRing) (size c : Nat) :
    cbc_verify_chksum ring size c = 0 ↔
      (∑ i ∈ Finset.range size,
        (0x100 - ring.buf ((ring.head + i) % CBC_RING_BUFFER_SIZE))) % 256 = c := by
  simp only [cbc_verify_chksum]
  rw [← chkFold_mod, ← and_255_eq_mod]
  split_ifs with hc
  · simp [hc]
  · simp [hc]

/-! ### Deframer step lemmas -/

/-- The extension/length/sequence byte the step parses. -/
def unpackEls (s : UnpackState) : Nat :=
  s.ring.buf ((s.ring.head + CBC_ELS_POS) % CBC_RING_BUFFER_SIZE)

/-- The padded service length the step decodes (`len = (len + 1) * 4`). -/
def unpackLen (s : UnpackState) : Nat :=
  (((unpackEls s >>> CBC_LEN_OFFSET) &&& CBC_LEN_MASK) + 1) * 4

/-- The sequence field the step decodes. -/
def unpackSeq (s : UnpackState) : Nat :=
  (unpackEls s >>> CBC_SEQ_OFFSET) &&& CBC_SEQ_MASK

/-- The total frame length the step decodes. -/
def unpackFrameLen (s : UnpackState) : Nat :=
  unpackLen s + CBC_LINK_HDR_SIZE + CBC_ADDR_HDR_SIZE

theorem cbc_unpack_step_break (s : UnpackState)
    (h : cbc_avalids s.ring < CBC_MIN_FRAME_SIZE ∨ cbc_avalids s.ring < s.remains) :
    cbc_unpack_step s = none := by
  simp only [cbc_unpack_step]
  rw [if_pos h]

theorem cbc_unpack_step_sofskip (s : UnpackState)
    (h1 : ¬(cbc_avalids s.ring < CBC_MIN_FRAME_SIZE ∨ cbc_avalids s.ring < s.remains))
    (h2 : s.ring.buf s.ring.head ≠ CBC_SOF_VALUE) :
    cbc_unpack_step s =
      some { ring := cbc_ring_skips s.ring 1, remains := 0, rx_seq := s.rx_seq,
             emitted := s.emitted } := by
  simp only [cbc_unpack_step]
  rw [if_neg h1]
  rw [if_pos h2]

theorem cbc_unpack_step_oversize (s : UnpackState)
    (h1 : ¬(cbc_avalids s.ring < CBC_MIN_FRAME_SIZE ∨ cbc_avalids s.ring < s.remains))
    (h2 : s.ring.buf s.ring.head = CBC_SOF_VALUE)
    (h3 : unpackFrameLen s > CBC_MAX_FRAME_SIZE) :
    cbc_unpack_step s =
      some { ring := cbc_ring_skips s.ring 1, remains := 0, rx_seq := s.rx_seq,
             emitted := s.emitted } := by
  unfold unpackFrameLen unpackLen unpackEls at h3
  simp only [cbc_unpack_step]
  rw [if_neg h1]
  rw [if_neg (not_not_intro h2), if_pos h3]

theorem cbc_unpack_step_wait (s : UnpackState)
    (h1 : ¬(cbc_avalids s.ring < CBC_MIN_FRAME_SIZE ∨ cbc_avalids s.ring < s.remains))
    (h2 : s.ring.buf s.ring.head = CBC_SOF_VALUE)
    (h3 : ¬unpackFrameLen s > CBC_MAX_FRAME_SIZE)
    (h4 : cbc_avalids s.ring < unpackFrameLen s) :
    cbc_unpack_step s =
      some { ring := s.ring, remains := unpackFrameLen s, rx_seq := s.rx_seq,
             emitted := s.emitted } := by
  unfold unpackFrameLen unpackLen unpackEls at h3 h4 ⊢
  simp only [cbc_unpack_step]
  rw [if_neg h1]
  rw [if_neg (not_not_intro h2), if_neg h3, if_pos h4]

theorem cbc_unpack_step_chkfail (s : UnpackState)
    (h1 : ¬(cbc_avalids s.ring < CBC_MIN_FRAME_SIZE ∨ cbc_avalids s.ring < s.remains))
    (h2 : s.ring.buf s.ring.head = CBC_SOF_VALUE)
    (h3 : ¬unpackFrameLen s > CBC_MAX_FRAME_SIZE)
    (h4 : ¬cbc_avalids s.ring < unpackFrameLen s)
    (h5 : cbc_verify_chksum s.ring (unpackFrameLen s - 1)
      (s.ring.buf ((s.ring.head + unpackFrameLen s - 1) % CBC_RING_BUFFER_SIZE)) ≠ 0) :
    cbc_unpack_step s =
      some { ring := cbc_ring_skips s.ring 1, remains := 0, rx_seq := s.rx_seq,
             emitted := s.emitted } := by
  unfold unpackFrameLen unpackLen unpackEls at h3 h4 h5
  simp only [cbc_unpack_step]
  rw [if_neg h1]
  rw [if_neg (not_not_intro h2), if_neg h3, if_neg h4, if_pos h5]

theorem cbc_unpack_step_emit (s : UnpackState)
    (h1 : ¬(cbc_avalids s.ring < CBC_MIN_FRAME_SIZE ∨ cbc_avalids s.ring < s.remains))
    (h2 : s.ring.buf s.ring.head = CBC_SOF_VALUE)
    (h3 : ¬unpackFrameLen s > CBC_MAX_FRAME_SIZE)
    (h4 : ¬cbc_avalids s.ring < unpackFrameLen s)
    (h5 : cbc_verify_chksum s.ring (unpackFrameLen s - 1)
      (s.ring.buf ((s.ring.head + unpackFrameLen s - 1) % CBC_RING_BUFFER_SIZE)) = 0) :
    cbc_unpack_step s =
      some { ring := cbc_ring_skips s.ring (unpackFrameLen s), remains := 0,
             rx_seq := unpackSeq s,
             emitted := s.emitted ++
               [ioc_build_request s.ring (unpackFrameLen s) (unpackLen s)] } := by
  unfold unpackFrameLen at h3 h4 h5 ⊢
  unfold unpackSeq
  unfold unpackLen at h3 h4 h5 ⊢
  unfold unpackEls at h3 h4 h5 ⊢
  simp only [cbc_unpack_step]
  rw [if_neg h1]
  rw [if_neg (not_not_intro h2), if_neg h3, if_neg h4, if_neg (not_not_intro h5)]
  by_cases hs : (s.rx_seq + 1) &&& CBC_SEQ_MASK ≠
      (s.ring.buf ((s.ring.head + CBC_ELS_POS) % CBC_RING_BUFFER_SIZE) >>> CBC_SEQ_OFFSET) &&& CBC_SEQ_MASK
  · rw [if_pos hs]
  · rw [if_neg hs]
    push_neg at hs
    rw [hs]

theorem unpackFrameLen_ge (s : UnpackState) : 8 ≤ unpackFrameLen s := by
  unfold unpackFrameLen unpackLen CBC_LINK_HDR_SIZE CBC_ADDR_HDR_SIZE
  omega

/-- C3: the checksum of a byte range equals the low 8 bits of the sum of
`0x100 - byte_i` over the range; and during deframing a frame whose length is
available is accepted (emitting a decoded request and consuming the frame)
exactly when that sum over its first `frame_len - 1` bytes mod 256 equals the
trailing checksum byte, while on a mismatch the deframer skips exactly one
byte (head + 1, buffer and tail untouched) and retries. -/
theorem claim_C3_checksum :
    (∀ (data : Nat → Nat) (size : Nat),
      cbc_cal_chksum data size &&& 0xFF =
        (∑ i ∈ Finset.range size, (0x100 - data i)) % 256) ∧
    (∀ s : UnpackState,
      CBC_MIN_FRAME_SIZE ≤ cbc_avalids s.ring →
      s.remains ≤ cbc_avalids s.ring →
      s.ring.buf s.ring.head = CBC_SOF_VALUE →
      unpackFrameLen s ≤ CBC_MAX_FRAME_SIZE →
      unpackFrameLen s ≤ cbc_avalids s.ring →
      ((((∑ i ∈ Finset.range (unpackFrameLen s - 1),
            (0x100 - s.ring.buf ((s.ring.head + i) % CBC_RING_BUFFER_SIZE))) % 256 =
          s.ring.buf ((s.ring.head + (unpackFrameLen s - 1)) % CBC_RING_BUFFER_SIZE)) →
        cbc_unpack_step s =
          some { ring := cbc_ring_skips s.ring (unpackFrameLen s), remains := 0,
                 rx_seq := unpackSeq s,
                 emitted := s.emitted ++
                   [ioc_build_request s.ring (unpackFrameLen s) (unpackLen s)] }) ∧
       (((∑ i ∈ Finset.range (unpackFrameLen s - 1),
            (0x100 - s.ring.buf ((s.ring.head + i) % CBC_RING_BUFFER_SIZE))) % 256 ≠
          s.ring.buf ((s.ring.head + (unpackFrameLen s - 1)) % CBC_RING_BUFFER_SIZE)) →
        cbc_unpack_step s =
          some { ring := cbc_ring_skips s.ring 1, remains := 0, rx_seq := s.rx_seq,
                 emitted := s.emitted }))) := by
  constructor
  · intro data size
    unfold cbc_cal_chksum
    rw [show (0xFF : Nat) = 255 from rfl, and_255_eq_mod]
    exact chkFold_mod data size
  · intro s h1 h2 h3 h4 h5
    have hge := unpackFrameLen_ge s
    have hpos : s.ring.head + unpackFrameLen s - 1 =
        s.ring.head + (unpackFrameLen s - 1) := by omega
    have hiff := cbc_verify_chksum_iff s.ring (unpackFrameLen s - 1)
      (s.ring.buf ((s.ring.head + unpackFrameLen s - 1) % CBC_RING_BUFFER_SIZE))
    rw [hpos] at hiff
    constructor
    · intro hsum
      exact cbc_unpack_step_emit s (by omega) h3 (by omega) (by omega)
        (hiff.mpr hsum)
    · intro hsum
      refine cbc_unpack_step_chkfail s (by omega) h3 (by omega) (by omega) ?_
      intro hv
      exact hsum (hiff.mp hv)

/-- A deframer state holding one complete valid frame, for the C3 witness. -/
def unpackS0 : UnpackState :=
  ⟨⟨0, 8, fun i => [5, 1, 16, 0, 0, 0, 0, 234].getD i 0⟩, 0, 0, []⟩

theorem claim_C3_checksum_witness :
    (cbc_cal_chksum (fun i => [5, 1, 16, 0, 0, 0, 0].getD i 0) 7 &&& 0xFF =
      (∑ i ∈ Finset.range 7,
        (0x100 - [5, 1, 16, 0, 0, 0, 0].getD i 0)) % 256) ∧
    CBC_MIN_FRAME_SIZE ≤ cbc_avalids unpackS0.ring ∧
    unpackS0.remains ≤ cbc_avalids unpackS0.ring ∧
    unpackS0.ring.buf unpackS0.ring.head = CBC_SOF_VALUE ∧
    unpackFrameLen unpackS0 ≤ CBC_MAX_FRAME_SIZE ∧
    unpackFrameLen unpackS0 ≤ cbc_avalids unpackS0.ring ∧
    ((∑ i ∈ Finset.range (unpackFrameLen unpackS0 - 1),
        (0x100 - unpackS0.ring.buf
          ((unpackS0.ring.head + i) % CBC_RING_BUFFER_SIZE))) % 256 =
      unpackS0.ring.buf
        ((unpackS0.ring.head + (unpackFrameLen unpackS0 - 1)) % CBC_RING_BUFFER_SIZE)) ∧
    cbc_unpack_step unpackS0 =
      some { ring := cbc_ring_skips unpackS0.ring (unpackFrameLen unpackS0),
             remains := 0, rx_seq := unpackSeq unpackS0,
             emitted := unpackS0.emitted ++
               [ioc_build_request unpackS0.ring (unpackFrameLen unpackS0)
                 (unpackLen unpackS0)] } :=
  ⟨claim_C3_checksum.1 _ 7, by decide, by decide, by decide, by decide, by decide,
    by decide,
    (claim_C3_checksum.2 unpackS0 (by decide) (by decide) (by decide) (by decide)
      (by decide)).1 (by decide)⟩

/-! ### Deframer progress and termination (claim C2) -/

theorem cbc_unpack_run_none (s : UnpackState) (h : cbc_unpack_step s = none) :
    ∀ f, cbc_unpack_run f s = s := by
  intro f
  cases f with
  | zero => rfl
  | succ f => simp [cbc_unpack_run, h]

theorem cbc_unpack_run_succ (s s' : UnpackState) (f : Nat)
    (h : cbc_unpack_step s = some s') :
    cbc_unpack_run (f + 1) s = cbc_unpack_run f s' := by
  simp [cbc_unpack_run, h]

/-- Every non-breaking iteration either strictly shrinks the occupied byte
count, or records `remains` and is immediately followed by a break. -/
theorem cbc_unpack_step_spec (s : UnpackState) (hwf : ringWF s.ring) :
    cbc_unpack_step s = none ∨
    ∃ s', cbc_unpack_step s = some s' ∧ ringWF s'.ring ∧
      (cbc_avalids s'.ring < cbc_avalids s.ring ∨
        (s'.ring = s.ring ∧ cbc_unpack_step s' = none)) := by
  have hmin8 : CBC_MIN_FRAME_SIZE = 8 := rfl
  by_cases hbreak : cbc_avalids s.ring < CBC_MIN_FRAME_SIZE ∨ cbc_avalids s.ring < s.remains
  · exact Or.inl (cbc_unpack_step_break s hbreak)
  · have hone : 1 ≤ cbc_avalids s.ring := by omega
    have hskip := cbc_ring_skips_spec s.ring 1 hwf hone
    by_cases hsof : s.ring.buf s.ring.head = CBC_SOF_VALUE
    · by_cases hmax : unpackFrameLen s > CBC_MAX_FRAME_SIZE
      · refine Or.inr ⟨_, cbc_unpack_step_oversize s hbreak hsof hmax, hskip.1, Or.inl ?_⟩
        dsimp only
        have := hskip.2.2.2
        omega
      · by_cases hwait : cbc_avalids s.ring < unpackFrameLen s
        · refine Or.inr ⟨_, cbc_unpack_step_wait s hbreak hsof hmax hwait, hwf, Or.inr ⟨rfl, ?_⟩⟩
          exact cbc_unpack_step_break _ (Or.inr hwait)
        · have hflen := unpackFrameLen_ge s
          have hskipf := cbc_ring_skips_spec s.ring (unpackFrameLen s) hwf (by omega)
          by_cases hchk : cbc_verify_chksum s.ring (unpackFrameLen s - 1)
              (s.ring.buf ((s.ring.head + unpackFrameLen s - 1) % CBC_RING_BUFFER_SIZE)) ≠ 0
          · refine Or.inr ⟨_, cbc_unpack_step_chkfail s hbreak hsof hmax hwait hchk,
              hskip.1, Or.inl ?_⟩
            dsimp only
            have := hskip.2.2.2
            omega
          · push_neg at hchk
            refine Or.inr ⟨_, cbc_unpack_step_emit s hbreak hsof hmax hwait hchk,
              hskipf.1, Or.inl ?_⟩
            dsimp only
            have := hskipf.2.2.2
            omega
    · refine Or.inr ⟨_, cbc_unpack_step_sofskip s hbreak hsof, hskip.1, Or.inl ?_⟩
      dsimp only
      have := hskip.2.2.2
      omega

/-- Fuel `2 * bound + 2` always reaches a break point: extra fuel is unused. -/
theorem cbc_unpack_run_stable (a : Nat) :
    ∀ s : UnpackState, ringWF s.ring → cbc_avalids s.ring ≤ a →
    ∀ extra, cbc_unpack_run (2 * a + 2 + extra) s = cbc_unpack_run (2 * a + 2) s := by
  induction a with
  | zero =>
    intro s hwf hav extra
    have hnone : cbc_unpack_step s = none := by
      apply cbc_unpack_step_break
      left
      have : CBC_MIN_FRAME_SIZE = 8 := rfl
      omega
    rw [cbc_unpack_run_none s hnone, cbc_unpack_run_none s hnone]
  | succ a ih =>
    intro s hwf hav extra
    rcases cbc_unpack_step_spec s hwf with hnone | ⟨s', hstep, hwf', hcase⟩
    · rw [cbc_unpack_run_none s hnone, cbc_unpack_run_none s hnone]
    · rcases hcase with hlt | ⟨_, hnone'⟩
      · have hav' : cbc_avalids s'.ring ≤ a := by omega
        have e1 : 2 * (a + 1) + 2 + extra = (2 * a + 2 + (1 + extra)) + 1 := by ring
        have e2 : 2 * (a + 1) + 2 = (2 * a + 2 + 1) + 1 := by ring
        rw [e1, e2, cbc_unpack_run_succ s s' _ hstep, cbc_unpack_run_succ s s' _ hstep,
          ih s' hwf' hav' (1 + extra), ih s' hwf' hav' 1]
      · have e1 : 2 * (a + 1) + 2 + extra = (2 * (a + 1) + 1 + extra) + 1 := by ring
        have e2 : 2 * (a + 1) + 2 = (2 * (a + 1) + 1) + 1 := by ring
        rw [e1, e2, cbc_unpack_run_succ s s' _ hstep, cbc_unpack_run_succ s s' _ hstep,
          cbc_unpack_run_none s' hnone', cbc_unpack_run_none s' hnone']

/-- C2: a ring holding exactly one garbage byte (failing frame detection)
followed by one complete valid frame of total length `flen` makes a single
`cbc_unpack_link` call emit exactly one decoded request and consume exactly
`1 + flen` bytes (head advances by `1 + flen`, leaving the ring empty);
moreover every failed frame attempt (a continuing step that emits nothing and
records no pending remainder) advances the head by exactly one byte, and the
deframer loop always terminates: the fixed fuel of `cbc_unpack_link` reaches
a break point, extra fuel changing nothing. -/
theorem claim_C2_resync :
    (∀ (r : CbcRing) (rx0 flen : Nat),
      ringWF r →
      cbc_avalids r = 1 + flen →
      r.buf r.head ≠ CBC_SOF_VALUE →
      r.buf ((r.head + 1) % CBC_RING_BUFFER_SIZE) = CBC_SOF_VALUE →
      flen = unpackFrameLen ⟨cbc_ring_skips r 1, 0, rx0, []⟩ →
      flen ≤ CBC_MAX_FRAME_SIZE →
      cbc_verify_chksum (cbc_ring_skips r 1) (flen - 1)
        ((cbc_ring_skips r 1).buf
          (((cbc_ring_skips r 1).head + flen - 1) % CBC_RING_BUFFER_SIZE)) = 0 →
      (cbc_unpack_link ⟨r, 0, rx0, []⟩).emitted.length = 1 ∧
      (cbc_unpack_link ⟨r, 0, rx0, []⟩).ring.head =
        (r.head + 1 + flen) % CBC_RING_BUFFER_SIZE ∧
      cbc_avalids (cbc_unpack_link ⟨r, 0, rx0, []⟩).ring = 0) ∧
    (∀ s s' : UnpackState, ringWF s.ring → cbc_unpack_step s = some s' →
      s'.emitted = s.emitted → s'.remains = 0 →
      s'.ring.head = (s.ring.head + 1) % CBC_RING_BUFFER_SIZE) ∧
    (∀ s : UnpackState, ringWF s.ring → ∀ extra,
      cbc_unpack_run (2 * CBC_RING_BUFFER_SIZE + 2 + extra) s = cbc_unpack_link s) := by
  have hmin8 : CBC_MIN_FRAME_SIZE = 8 := rfl
  refine ⟨?_, ?_, ?_⟩
  · intro r rx0 flen hwf hav hg hsof hflen hmax hchk
    have hge : 8 ≤ flen :=
      hflen ▸ unpackFrameLen_ge ⟨cbc_ring_skips r 1, 0, rx0, []⟩
    have hskip1 := cbc_ring_skips_spec r 1 hwf (by omega)
    have hwf1 : ringWF (cbc_ring_skips r 1) := hskip1.1
    have hav1 : cbc_avalids (cbc_ring_skips r 1) = flen := by
      have := hskip1.2.2.2
      omega
    rw [hflen] at hchk hmax hge hav1
    have hstep1 : cbc_unpack_step ⟨r, 0, rx0, []⟩ =
        some ⟨cbc_ring_skips r 1, 0, rx0, []⟩ :=
      cbc_unpack_step_sofskip ⟨r, 0, rx0, []⟩ (by first | omega | (dsimp only; omega)) hg
    have hstep2 : cbc_unpack_step ⟨cbc_ring_skips r 1, 0, rx0, []⟩ =
        some ⟨cbc_ring_skips (cbc_ring_skips r 1)
                (unpackFrameLen ⟨cbc_ring_skips r 1, 0, rx0, []⟩), 0,
              unpackSeq ⟨cbc_ring_skips r 1, 0, rx0, []⟩,
              [] ++ [ioc_build_request (cbc_ring_skips r 1)
                (unpackFrameLen ⟨cbc_ring_skips r 1, 0, rx0, []⟩)
                (unpackLen ⟨cbc_ring_skips r 1, 0, rx0, []⟩)]⟩ :=
      cbc_unpack_step_emit ⟨cbc_ring_skips r 1, 0, rx0, []⟩
        (by first | omega | (dsimp only; omega)) hsof (by first | omega | (dsimp only; omega)) (by first | omega | (dsimp only; omega)) hchk
    have hskip2 := cbc_ring_skips_spec (cbc_ring_skips r 1)
      (unpackFrameLen ⟨cbc_ring_skips r 1, 0, rx0, []⟩) hwf1 (by omega)
    have hstep3 : cbc_unpack_step ⟨cbc_ring_skips (cbc_ring_skips r 1)
          (unpackFrameLen ⟨cbc_ring_skips r 1, 0, rx0, []⟩), 0,
        unpackSeq ⟨cbc_ring_skips r 1, 0, rx0, []⟩,
        [] ++ [ioc_build_request (cbc_ring_skips r 1)
          (unpackFrameLen ⟨cbc_ring_skips r 1, 0, rx0, []⟩)
          (unpackLen ⟨cbc_ring_skips r 1, 0, rx0, []⟩)]⟩ = none := by
      apply cbc_unpack_step_break
      left
      have := hskip2.2.2.2
      first | omega | (dsimp only; omega)
    have hrun : cbc_unpack_link ⟨r, 0, rx0, []⟩ =
        ⟨cbc_ring_skips (cbc_ring_skips r 1)
            (unpackFrameLen ⟨cbc_ring_skips r 1, 0, rx0, []⟩), 0,
          unpackSeq ⟨cbc_ring_skips r 1, 0, rx0, []⟩,
          [] ++ [ioc_build_request (cbc_ring_skips r 1)
            (unpackFrameLen ⟨cbc_ring_skips r 1, 0, rx0, []⟩)
            (unpackLen ⟨cbc_ring_skips r 1, 0, rx0, []⟩)]⟩ := by
      show cbc_unpack_run (2 * CBC_RING_BUFFER_SIZE + 2) _ = _
      have hfuel : 2 * CBC_RING_BUFFER_SIZE + 2 = 512 + 1 + 1 := rfl
      rw [hfuel, cbc_unpack_run_succ _ _ _ hstep1, cbc_unpack_run_succ _ _ _ hstep2,
        cbc_unpack_run_none _ hstep3]
    rw [hrun]
    refine ⟨by simp, ?_, ?_⟩
    · show ((r.head + 1) % CBC_RING_BUFFER_SIZE +
          unpackFrameLen ⟨cbc_ring_skips r 1, 0, rx0, []⟩) % CBC_RING_BUFFER_SIZE =
        (r.head + 1 + flen) % CBC_RING_BUFFER_SIZE
      rw [hflen, Nat.mod_add_mod]
    · have := hskip2.2.2.2
      first | omega | (dsimp only; omega)
  · intro s s' hwf hstep hemit hrem
    by_cases hbreak : cbc_avalids s.ring < CBC_MIN_FRAME_SIZE ∨
        cbc_avalids s.ring < s.remains
    · rw [cbc_unpack_step_break s hbreak] at hstep
      exact absurd hstep (by simp)
    · by_cases hsof : s.ring.buf s.ring.head = CBC_SOF_VALUE
      · by_cases hmax : unpackFrameLen s > CBC_MAX_FRAME_SIZE
        · rw [cbc_unpack_step_oversize s hbreak hsof hmax] at hstep
          cases Option.some.inj hstep
          rfl
        · by_cases hwait : cbc_avalids s.ring < unpackFrameLen s
          · rw [cbc_unpack_step_wait s hbreak hsof hmax hwait] at hstep
            cases Option.some.inj hstep
            have := unpackFrameLen_ge s
            simp at hrem
            omega
          · by_cases hchk : cbc_verify_chksum s.ring (unpackFrameLen s - 1)
                (s.ring.buf ((s.ring.head + unpackFrameLen s - 1) %
                  CBC_RING_BUFFER_SIZE)) ≠ 0
            · rw [cbc_unpack_step_chkfail s hbreak hsof hmax hwait hchk] at hstep
              cases Option.some.inj hstep
              rfl
            · push_neg at hchk
              rw [cbc_unpack_step_emit s hbreak hsof hmax hwait hchk] at hstep
              cases Option.some.inj hstep
              simp at hemit
      · rw [cbc_unpack_step_sofskip s hbreak hsof] at hstep
        cases Option.some.inj hstep
        rfl
  · intro s hwf extra
    have hb : cbc_avalids s.ring ≤ CBC_RING_BUFFER_SIZE :=
      le_of_lt (cbc_avalids_lt s.ring hwf)
    exact cbc_unpack_run_stable CBC_RING_BUFFER_SIZE s hwf hb extra

/-- A ring holding one garbage byte followed by one valid 8-byte frame, for
the C2 witness. -/
def resyncRing : CbcRing :=
  ⟨0, 9, fun i => [0, 5, 1, 16, 0, 0, 0, 0, 234].getD i 0⟩

theorem claim_C2_resync_witness :
    ringWF resyncRing ∧ cbc_avalids resyncRing = 1 + 8 ∧
    resyncRing.buf resyncRing.head ≠ CBC_SOF_VALUE ∧
    resyncRing.buf ((resyncRing.head + 1) % CBC_RING_BUFFER_SIZE) = CBC_SOF_VALUE ∧
    8 = unpackFrameLen ⟨cbc_ring_skips resyncRing 1, 0, 0, []⟩ ∧
    (8 : Nat) ≤ CBC_MAX_FRAME_SIZE ∧
    cbc_verify_chksum (cbc_ring_skips resyncRing 1) (8 - 1)
      ((cbc_ring_skips resyncRing 1).buf
        (((cbc_ring_skips resyncRing 1).head + 8 - 1) % CBC_RING_BUFFER_SIZE)) = 0 ∧
    ((cbc_unpack_link ⟨resyncRing, 0, 0, []⟩).emitted.length = 1 ∧
     (cbc_unpack_link ⟨resyncRing, 0, 0, []⟩).ring.head =
       (resyncRing.head + 1 + 8) % CBC_RING_BUFFER_SIZE ∧
     cbc_avalids (cbc_unpack_link ⟨resyncRing, 0, 0, []⟩).ring = 0) :=
  ⟨by decide, by decide, by decide, by decide, by decide, by decide, by decide,
    claim_C2_resync.1 resyncRing 0 8 (by decide) (by decide) (by decide) (by decide)
      (by decide) (by decide) (by decide)⟩

/-! ### Framer characterization (claim C1) -/

theorem cbc_fill_padding_spec (buf : Nat → Nat) (size : Nat) :
    size ≤ (cbc_fill_padding buf size CBC_GRANULARITY).1 ∧
    (cbc_fill_padding buf size CBC_GRANULARITY).1 ≤ size + 3 ∧
    (cbc_fill_padding buf size CBC_GRANULARITY).1 % 4 = 0 ∧
    ∀ i, i < size - 1 → (cbc_fill_padding buf size CBC_GRANULARITY).2 i = buf i := by
  have hg : CBC_GRANULARITY = 4 := rfl
  unfold cbc_fill_padding
  rw [hg]
  by_cases hz : size % 4 = 0
  · rw [if_neg (by omega)]
    exact ⟨le_refl _, by omega, hz, fun i _ => rfl⟩
  · rw [if_pos (by omega)]
    dsimp only
    refine ⟨by omega, by omega, by omega, ?_⟩
    intro i hi
    have hch : CBC_CHKSUM_SIZE = 1 := rfl
    rw [if_neg (by omega)]

/-- Decoding the packed extension/length/sequence byte recovers the length
field (bounded check over the 3-bit fields). -/
theorem els_decode : ∀ a ≤ 7, ∀ b ≤ 7,
    (((((0 &&& 3) <<< 6) ||| (a <<< 3)) ||| (b <<< 0)) >>> 3) &&& 7 = a := by decide

/-- Decoding the packed address byte recovers the mux field (bounded check
over the 5-bit mux and 3-bit priority fields). -/
theorem addr_decode : ∀ a ≤ 31, ∀ b ≤ 7,
    (((a <<< 3) ||| (b <<< 0)) >>> 3) &&& 31 = a := by decide

theorem mask7_id : ∀ x ≤ 7, x &&& 7 = x := by decide

theorem mask31_id : ∀ x ≤ 31, x &&& 31 = x := by decide

theorem cbc_pack_address_spec (req : CbcRequest) :
    (((cbc_pack_address req).buf 2 >>> 3) &&& 31) = req.id &&& 31 ∧
    (∀ i, i ≠ 2 → (cbc_pack_address req).buf i = req.buf i) ∧
    (cbc_pack_address req).id = req.id ∧
    (cbc_pack_address req).srv_len = req.srv_len ∧
    (cbc_pack_address req).link_len = req.link_len ∧
    (cbc_pack_address req).rtype = req.rtype := by
  unfold cbc_pack_address
  simp only [CBC_ADDR_POS, CBC_MUX_MASK, CBC_MUX_OFFSET, CBC_PRIO_MASK, CBC_PRIO_OFFSET]
  refine ⟨?_, ?_, by trivial, by trivial, by trivial, by trivial⟩
  · rw [upd_same, upd_same]
    exact addr_decode (req.id &&& 31) Nat.and_le_right _ Nat.and_le_right
  · intro i hi
    rw [upd_other _ _ _ _ hi, upd_other _ _ _ _ hi]

theorem chkFold_upd_high (f : Nat → Nat) (i v n : Nat) (h : n ≤ i) :
    chkFold (upd f i v) n = chkFold f n :=
  chkFold_congr _ _ n (fun j hj => upd_other _ _ _ _ (by omega))

theorem cbc_pack_link_spec (req : CbcRequest) (tx : Nat)
    (hmax : req.srv_len ≤ CBC_MAX_SERVICE_SIZE) (hmin : 1 ≤ req.srv_len) :
    (cbc_pack_link req tx).1.link_len % 4 = 0 ∧
    req.srv_len + 4 ≤ (cbc_pack_link req tx).1.link_len ∧
    (cbc_pack_link req tx).1.link_len ≤ req.srv_len + 7 ∧
    ((req.srv_len - 1) / 4 + 1) * 4 + 4 = (cbc_pack_link req tx).1.link_len ∧
    (cbc_pack_link req tx).1.buf 0 = CBC_SOF_VALUE ∧
    (((cbc_pack_link req tx).1.buf 1 >>> 3) &&& 7) = (req.srv_len - 1) / 4 ∧
    (∀ i, 2 ≤ i → i < req.srv_len + 3 → (cbc_pack_link req tx).1.buf i = req.buf i) ∧
    (cbc_pack_link req tx).1.buf ((cbc_pack_link req tx).1.link_len - 1) =
      chkFold (cbc_pack_link req tx).1.buf
        ((cbc_pack_link req tx).1.link_len - 1) &&& 255 ∧
    (cbc_pack_link req tx).1.id = req.id ∧
    (cbc_pack_link req tx).1.srv_len = req.srv_len ∧
    (cbc_pack_link req tx).1.rtype = req.rtype := by
  have hms : CBC_MAX_SERVICE_SIZE = 32 := rfl
  obtain ⟨hp1, hp2, hp3, hp4⟩ :=
    cbc_fill_padding_spec req.buf (req.srv_len + CBC_ADDR_HDR_SIZE + CBC_LINK_HDR_SIZE)
  simp only [CBC_ADDR_HDR_SIZE, CBC_LINK_HDR_SIZE, CBC_GRANULARITY] at hp1 hp2 hp3 hp4
  simp only [cbc_pack_link, cbc_cal_chksum, CBC_SOF_POS, CBC_ELS_POS, CBC_EXT_VALUE,
    CBC_EXT_MASK, CBC_EXT_OFFSET, CBC_LEN_UNIT, CBC_LEN_MASK, CBC_LEN_OFFSET,
    CBC_SEQ_OFFSET, CBC_SEQ_MASK, CBC_ADDR_HDR_SIZE, CBC_LINK_HDR_SIZE, CBC_GRANULARITY]
  rw [if_neg (by omega)]
  dsimp only
  set L := (cbc_fill_padding req.buf (req.srv_len + 1 + 3) 4).1 with hLdef
  set P2 := (cbc_fill_padding req.buf (req.srv_len + 1 + 3) 4).2 with hP2def
  refine ⟨hp3, by omega, by omega, by omega, ?_, ?_, ?_, ?_, by trivial, by trivial,
    by trivial⟩
  · rw [upd_other _ _ _ _ (by omega), upd_other _ _ _ _ (by decide),
      upd_other _ _ _ _ (by decide), upd_other _ _ _ _ (by decide), upd_same]
  · rw [upd_other _ _ _ _ (by omega), upd_same, upd_same, upd_same]
    rw [els_decode _ Nat.and_le_right _ Nat.and_le_right,
      mask7_id _ (by omega)]
  · intro i h2i hi3
    rw [upd_other _ _ _ _ (by omega), upd_other _ _ _ _ (by omega),
      upd_other _ _ _ _ (by omega), upd_other _ _ _ _ (by omega),
      upd_other _ _ _ _ (by omega)]
    exact hp4 i (by omega)
  · rw [upd_same, chkFold_upd_high _ _ _ _ (Nat.le_refl _)]

theorem cbc_copy_exact (bs : List Nat) :
    ∀ (t : Nat) (f : Nat → Nat), t + bs.length < CBC_RING_BUFFER_SIZE →
    (cbc_copy_to_ring bs ⟨0, t, f⟩).1 = 0 ∧
    (cbc_copy_to_ring bs ⟨0, t, f⟩).2.head = 0 ∧
    (cbc_copy_to_ring bs ⟨0, t, f⟩).2.tail = t + bs.length ∧
    (∀ i, i < t → (cbc_copy_to_ring bs ⟨0, t, f⟩).2.buf i = f i) ∧
    (∀ i, t ≤ i → i < t + bs.length →
      (cbc_copy_to_ring bs ⟨0, t, f⟩).2.buf i = bs.getD (i - t) 0) := by
  induction bs with
  | nil =>
    intro t f _
    exact ⟨rfl, rfl, by simp [cbc_copy_to_ring], fun i _ => rfl,
      fun i h1 h2 => absurd h2 (by simp only [List.length_nil]; omega)⟩
  | cons b rest ih =>
    intro t f h
    simp only [List.length_cons] at h
    have hpos : (t + 1) % CBC_RING_BUFFER_SIZE = t + 1 := Nat.mod_eq_of_lt (by omega)
    have hne : (t + 1) % CBC_RING_BUFFER_SIZE ≠ 0 := by rw [hpos]; omega
    have hstep : cbc_copy_to_ring (b :: rest) ⟨0, t, f⟩ =
        cbc_copy_to_ring rest ⟨0, t + 1, upd f t b⟩ := by
      simp only [cbc_copy_to_ring]
      rw [if_pos hne, hpos]
    rw [hstep]
    obtain ⟨ih1, ih2, ih3, ih4, ih5⟩ := ih (t + 1) (upd f t b) (by omega)
    refine ⟨ih1, ih2, by rw [ih3]; simp only [List.length_cons]; omega, ?_, ?_⟩
    · intro i hi
      rw [ih4 i (by omega)]
      exact upd_other _ _ _ _ (by omega)
    · intro i h1 h2
      rcases Nat.eq_or_lt_of_le h1 with heq | hlt

      · rw [← heq, ih4 t (by omega), upd_same, Nat.sub_self]
        rfl
      · rw [ih5 i (by omega) (by simp only [List.length_cons] at h2 ⊢; omega)]
        have hidx : i - t = (i - (t + 1)) + 1 := by omega
        rw [hidx]
        rfl

/-- A protocol request carrying service command byte `s` and payload `p`,
with `link_len = 0` (not yet link-framed) on channel `c`. -/
def mkTestReq (c s : Nat) (p : List Nat) : CbcRequest :=
  { id := c
    rtype := CBC_REQ_T_PROT
    srv_len := 1 + p.length
    link_len := 0
    buf := fun i =>
      if i = CBC_SRV_POS then s
      else if CBC_PAYLOAD_POS ≤ i ∧ i < CBC_PAYLOAD_POS + p.length then
        p.getD (i - CBC_PAYLOAD_POS) 0
      else 0 }

/-- Deframing a ring that holds exactly one complete valid frame of length
`L` starting at head 0 emits exactly that frame's decoded request and
consumes all `L` bytes. -/
theorem cbc_unpack_full_frame (g : Nat → Nat) (L rx0 : Nat)
    (hL8 : 8 ≤ L) (hLmax : L ≤ 96)
    (hsof : g 0 = CBC_SOF_VALUE)
    (hflen : (((g 1 >>> 3) &&& 7) + 1) * 4 + 4 = L)
    (hchk : chkFold g (L - 1) &&& 255 = g (L - 1)) :
    (cbc_unpack_link ⟨⟨0, L, g⟩, 0, rx0, []⟩).emitted =
      [ioc_build_request ⟨0, L, g⟩ L (L - 4)] ∧
    (cbc_unpack_link ⟨⟨0, L, g⟩, 0, rx0, []⟩).ring.head = L ∧
    cbc_avalids (cbc_unpack_link ⟨⟨0, L, g⟩, 0, rx0, []⟩).ring = 0 := by
  have hC : CBC_RING_BUFFER_SIZE = 256 := rfl
  have hMIN : CBC_MIN_FRAME_SIZE = 8 := rfl
  have hMAX : CBC_MAX_FRAME_SIZE = 96 := rfl
  have hav : cbc_avalids ⟨0, L, g⟩ = L := by
    unfold cbc_avalids
    simp
  have hels : unpackEls ⟨⟨0, L, g⟩, 0, rx0, []⟩ = g 1 := by
    unfold unpackEls
    dsimp only
    rw [(by decide : (0 + CBC_ELS_POS) % CBC_RING_BUFFER_SIZE = 1)]
  have hulen : unpackLen ⟨⟨0, L, g⟩, 0, rx0, []⟩ = (((g 1 >>> 3) &&& 7) + 1) * 4 := by
    unfold unpackLen
    rw [hels]
    simp only [CBC_LEN_OFFSET, CBC_LEN_MASK]
  have hF : unpackFrameLen ⟨⟨0, L, g⟩, 0, rx0, []⟩ = L := by
    unfold unpackFrameLen
    rw [hulen]
    have h1 : CBC_LINK_HDR_SIZE = 3 := rfl
    have h2 : CBC_ADDR_HDR_SIZE = 1 := rfl
    omega
  have hulen4 : unpackLen ⟨⟨0, L, g⟩, 0, rx0, []⟩ = L - 4 := by
    rw [hulen]
    omega
  have hwf : ringWF ⟨0, L, g⟩ :=
    ⟨by show (0 : Nat) < CBC_RING_BUFFER_SIZE; omega,
     by show L < CBC_RING_BUFFER_SIZE; omega⟩
  have h1 : ¬(cbc_avalids (⟨⟨0, L, g⟩, 0, rx0, []⟩ : UnpackState).ring <
      CBC_MIN_FRAME_SIZE ∨
      cbc_avalids (⟨⟨0, L, g⟩, 0, rx0, []⟩ : UnpackState).ring <
        (⟨⟨0, L, g⟩, 0, rx0, []⟩ : UnpackState).remains) := by
    dsimp only
    omega
  have h3 : ¬unpackFrameLen ⟨⟨0, L, g⟩, 0, rx0, []⟩ > CBC_MAX_FRAME_SIZE := by omega
  have h4 : ¬cbc_avalids (⟨⟨0, L, g⟩, 0, rx0, []⟩ : UnpackState).ring <
      unpackFrameLen ⟨⟨0, L, g⟩, 0, rx0, []⟩ := by
    dsimp only
    omega
  have h5 : cbc_verify_chksum (⟨⟨0, L, g⟩, 0, rx0, []⟩ : UnpackState).ring
      (unpackFrameLen ⟨⟨0, L, g⟩, 0, rx0, []⟩ - 1)
      ((⟨⟨0, L, g⟩, 0, rx0, []⟩ : UnpackState).ring.buf
        (((⟨⟨0, L, g⟩, 0, rx0, []⟩ : UnpackState).ring.head +
          unpackFrameLen ⟨⟨0, L, g⟩, 0, rx0, []⟩ - 1) % CBC_RING_BUFFER_SIZE)) = 0 := by
    rw [hF]
    dsimp only
    rw [(show (0 + L - 1) % CBC_RING_BUFFER_SIZE = L - 1 by
      rw [Nat.zero_add]
      exact Nat.mod_eq_of_lt (by omega))]
    simp only [cbc_verify_chksum]
    have hcg : chkFold (fun i => g ((0 + i) % CBC_RING_BUFFER_SIZE)) (L - 1) =
        chkFold g (L - 1) :=
      chkFold_congr _ _ _ (fun i hi => by
        rw [Nat.zero_add, Nat.mod_eq_of_lt (by omega)])
    rw [hcg, if_pos hchk]
  have hstep1 := cbc_unpack_step_emit ⟨⟨0, L, g⟩, 0, rx0, []⟩ h1 hsof h3 h4 h5
  have hskips := cbc_ring_skips_spec ⟨0, L, g⟩
    (unpackFrameLen ⟨⟨0, L, g⟩, 0, rx0, []⟩) hwf (by omega)
  have hstep2 : cbc_unpack_step
      { ring := cbc_ring_skips ⟨0, L, g⟩ (unpackFrameLen ⟨⟨0, L, g⟩, 0, rx0, []⟩),
        remains := 0, rx_seq := unpackSeq ⟨⟨0, L, g⟩, 0, rx0, []⟩,
        emitted := ([] : List CbcRequest) ++
          [ioc_build_request ⟨0, L, g⟩ (unpackFrameLen ⟨⟨0, L, g⟩, 0, rx0, []⟩)
            (unpackLen ⟨⟨0, L, g⟩, 0, rx0, []⟩)] } = none := by
    apply cbc_unpack_step_break
    left
    dsimp only
    have := hskips.2.2.2
    omega
  have hrun : cbc_unpack_link ⟨⟨0, L, g⟩, 0, rx0, []⟩ =
      { ring := cbc_ring_skips ⟨0, L, g⟩ (unpackFrameLen ⟨⟨0, L, g⟩, 0, rx0, []⟩),
        remains := 0, rx_seq := unpackSeq ⟨⟨0, L, g⟩, 0, rx0, []⟩,
        emitted := ([] : List CbcRequest) ++
          [ioc_build_request ⟨0, L, g⟩ (unpackFrameLen ⟨⟨0, L, g⟩, 0, rx0, []⟩)
            (unpackLen ⟨⟨0, L, g⟩, 0, rx0, []⟩)] } := by
    show cbc_unpack_run (2 * CBC_RING_BUFFER_SIZE + 2) _ = _
    rw [(rfl : 2 * CBC_RING_BUFFER_SIZE + 2 = 513 + 1),
      cbc_unpack_run_succ _ _ _ hstep1, cbc_unpack_run_none _ hstep2]
  rw [hrun]
  refine ⟨?_, ?_, ?_⟩
  · dsimp only
    rw [hF, hulen4]
    simp
  · show (0 + unpackFrameLen ⟨⟨0, L, g⟩, 0, rx0, []⟩) % CBC_RING_BUFFER_SIZE = L
    rw [hF, Nat.zero_add]
    exact Nat.mod_eq_of_lt (by omega)
  · dsimp only
    have := hskips.2.2.2
    omega

/-- Core of the round trip: transmitting the `link_len` frame bytes of a
correctly packed request into an empty ring and deframing yields exactly one
decoded request carrying the original command byte, payload and mux field. -/
theorem cbc_roundtrip_frame (R : CbcRequest) (c s : Nat) (p : List Nat) (rx0 : Nat)
    (hb : 1 + p.length + 4 ≤ R.link_len) (hb2 : R.link_len ≤ 1 + p.length + 7)
    (hp : 1 + p.length ≤ 32)
    (hsofR : R.buf 0 = CBC_SOF_VALUE)
    (hflenR : (((R.buf 1 >>> 3) &&& 7) + 1) * 4 + 4 = R.link_len)
    (hmux : (R.buf 2 >>> 3) &&& 31 = c)
    (hsrvb : R.buf 3 = s)
    (hpayR : ∀ j < p.length, R.buf (4 + j) = p.getD j 0)
    (hchkR : R.buf (R.link_len - 1) = chkFold R.buf (R.link_len - 1) &&& 255) :
    (cbc_copy_to_ring ((List.range R.link_len).map R.buf) ⟨0, 0, fun _ => 0⟩).1 = 0 ∧
    ∃ d : CbcRequest,
      (cbc_unpack_link ⟨(cbc_copy_to_ring ((List.range R.link_len).map R.buf)
          ⟨0, 0, fun _ => 0⟩).2, 0, rx0, []⟩).emitted = [d] ∧
      d.buf CBC_SRV_POS = s ∧
      (∀ j < p.length, d.buf (CBC_PAYLOAD_POS + j) = p.getD j 0) ∧
      ∀ pkt : CbcPkt, pkt.req = d →
        ∃ pkt', cbc_rx_handler_mux pkt = some pkt' ∧ pkt'.req.id = c := by
  have hC : CBC_RING_BUFFER_SIZE = 256 := rfl
  have hlen : ((List.range R.link_len).map R.buf).length = R.link_len := by simp
  obtain ⟨hc1, hc2, hc3, hc4, hc5⟩ :=
    cbc_copy_exact ((List.range R.link_len).map R.buf) 0 (fun _ => 0)
      (by rw [Nat.zero_add, hlen]; omega)
  have hbuf2 : ∀ i, i < R.link_len →
      (cbc_copy_to_ring ((List.range R.link_len).map R.buf)
        ⟨0, 0, fun _ => 0⟩).2.buf i = R.buf i := by
    intro i hi
    rw [hc5 i (by omega) (by rw [Nat.zero_add, hlen]; omega), Nat.sub_zero,
      List.getD_eq_getElem _ _ (by rw [hlen]; omega)]
    simp
  have hr2eq : (cbc_copy_to_ring ((List.range R.link_len).map R.buf)
      ⟨0, 0, fun _ => 0⟩).2 = ⟨0, R.link_len,
        (cbc_copy_to_ring ((List.range R.link_len).map R.buf)
          ⟨0, 0, fun _ => 0⟩).2.buf⟩ := by
    have h2 : (cbc_copy_to_ring ((List.range R.link_len).map R.buf)
        ⟨0, 0, fun _ => 0⟩).2.tail = R.link_len := by
      rw [hc3, Nat.zero_add, hlen]
    calc (cbc_copy_to_ring ((List.range R.link_len).map R.buf) ⟨0, 0, fun _ => 0⟩).2
        = ⟨(cbc_copy_to_ring ((List.range R.link_len).map R.buf)
              ⟨0, 0, fun _ => 0⟩).2.head,
           (cbc_copy_to_ring ((List.range R.link_len).map R.buf)
              ⟨0, 0, fun _ => 0⟩).2.tail,
           (cbc_copy_to_ring ((List.range R.link_len).map R.buf)
              ⟨0, 0, fun _ => 0⟩).2.buf⟩ := rfl
      _ = _ := by rw [hc2, h2]
  obtain ⟨hem, hhead, hav0⟩ := cbc_unpack_full_frame
    ((cbc_copy_to_ring ((List.range R.link_len).map R.buf) ⟨0, 0, fun _ => 0⟩).2.buf)
    R.link_len rx0 (by omega) (by omega)
    (by rw [hbuf2 0 (by omega)]; exact hsofR)
    (by rw [hbuf2 1 (by omega)]; exact hflenR)
    (by rw [chkFold_congr _ R.buf (R.link_len - 1) (fun i hi => hbuf2 i (by omega)),
          hbuf2 (R.link_len - 1) (by omega)]
        exact hchkR.symm)
  have hdbuf : ∀ i, i < R.link_len →
      (ioc_build_request ⟨0, R.link_len,
        (cbc_copy_to_ring ((List.range R.link_len).map R.buf)
          ⟨0, 0, fun _ => 0⟩).2.buf⟩ R.link_len (R.link_len - 4)).buf i = R.buf i := by
    intro i hi
    show (if i < R.link_len then
        (cbc_copy_to_ring ((List.range R.link_len).map R.buf)
          ⟨0, 0, fun _ => 0⟩).2.buf ((0 + i) % CBC_RING_BUFFER_SIZE)
      else 0) = R.buf i
    rw [if_pos hi, Nat.zero_add, Nat.mod_eq_of_lt (by omega), hbuf2 i hi]
  refine ⟨hc1, ⟨ioc_build_request ⟨0, R.link_len,
      (cbc_copy_to_ring ((List.range R.link_len).map R.buf)
        ⟨0, 0, fun _ => 0⟩).2.buf⟩ R.link_len (R.link_len - 4), ?_, ?_, ?_, ?_⟩⟩
  · rw [hr2eq]
    exact hem
  · have h3 : CBC_SRV_POS = 3 := rfl
    rw [h3]
    rw [hdbuf 3 (by omega)]
    exact hsrvb
  · intro j hj
    have h4 : CBC_PAYLOAD_POS = 4 := rfl
    rw [h4, hdbuf (4 + j) (by omega)]
    exact hpayR j hj
  · intro pkt hpq
    simp only [cbc_rx_handler_mux]
    rw [hpq]
    rw [if_neg (by
      simp only [ioc_build_request]
      exact not_not_intro rfl)]
    refine ⟨_, rfl, ?_⟩
    show ((ioc_build_request _ _ _).buf CBC_ADDR_POS >>> CBC_MUX_OFFSET) &&&
        CBC_MUX_MASK = c
    have ha : CBC_ADDR_POS = 2 := rfl
    have hb' : CBC_MUX_OFFSET = 3 := rfl
    have hm : CBC_MUX_MASK = 31 := rfl
    rw [ha, hb', hm, hdbuf 2 (by omega)]
    exact hmux

/-- C1: packing a request with channel id `c`, service command byte `s` and
payload `p` (with `srv_len = 1 + |p|` within the maximum service size and
`link_len = 0`) via `cbc_send_pkt` (which applies `cbc_pack_address` and
`cbc_pack_link`) transmits to the virtual UART; feeding the produced frame
bytes to `cbc_unpack_link` yields exactly one decoded request whose service
command byte is `s`, whose payload content equals `p`, and whose channel id,
as assigned by the rx dispatch from the address header, is `c`. -/
theorem claim_C1_roundtrip (c s : Nat) (p : List Nat) (rx0 tx0 : Nat) (pkt0 : CbcPkt)
    (hc : c ≤ CBC_MUX_MASK) (hp : 1 + p.length ≤ CBC_MAX_SERVICE_SIZE)
    (hpkt : pkt0.req = mkTestReq c s p) :
    (cbc_send_pkt pkt0 tx0).2.2.ch = IOC_VIRTUAL_UART ∧
    (cbc_copy_to_ring (cbc_send_pkt pkt0 tx0).2.2.data ⟨0, 0, fun _ => 0⟩).1 = 0 ∧
    ∃ d : CbcRequest,
      (cbc_unpack_link ⟨(cbc_copy_to_ring (cbc_send_pkt pkt0 tx0).2.2.data
          ⟨0, 0, fun _ => 0⟩).2, 0, rx0, []⟩).emitted = [d] ∧
      d.buf CBC_SRV_POS = s ∧
      (∀ j < p.length, d.buf (CBC_PAYLOAD_POS + j) = p.getD j 0) ∧
      ∀ pkt : CbcPkt, pkt.req = d →
        ∃ pkt', cbc_rx_handler_mux pkt = some pkt' ∧ pkt'.req.id = c := by
  have hms : CBC_MAX_SERVICE_SIZE = 32 := rfl
  have hmm' : CBC_MUX_MASK = 31 := rfl
  obtain ⟨ha2, hapres, haid, hasrv, halink, hartype⟩ :=
    cbc_pack_address_spec (mkTestReq c s p)
  have hsrv : (cbc_pack_address (mkTestReq c s p)).srv_len = 1 + p.length :=
    hasrv.trans rfl
  obtain ⟨hl1, hl2, hl3, hl4, hl5, hl6, hl7, hl8, hl9, hl10, hl11⟩ :=
    cbc_pack_link_spec (cbc_pack_address (mkTestReq c s p)) tx0
      (by rw [hsrv]; exact hp) (by rw [hsrv]; omega)
  rw [hsrv] at hl2 hl3 hl4 hl6 hl7
  have hflenR : (((cbc_pack_link (cbc_pack_address (mkTestReq c s p)) tx0).1.buf 1 >>>
      3 &&& 7) + 1) * 4 + 4 =
      (cbc_pack_link (cbc_pack_address (mkTestReq c s p)) tx0).1.link_len := by
    rw [hl6]
    exact hl4
  have hmux : ((cbc_pack_link (cbc_pack_address (mkTestReq c s p)) tx0).1.buf 2 >>>
      3) &&& 31 = c := by
    rw [hl7 2 (by omega) (by omega), ha2]
    exact mask31_id c (by omega)
  have hsrvb : (cbc_pack_link (cbc_pack_address (mkTestReq c s p)) tx0).1.buf 3 = s := by
    rw [hl7 3 (by omega) (by omega), hapres 3 (by omega)]
    simp [mkTestReq, CBC_SRV_POS]
  have hpayR : ∀ j < p.length,
      (cbc_pack_link (cbc_pack_address (mkTestReq c s p)) tx0).1.buf (4 + j) =
        p.getD j 0 := by
    intro j hj
    rw [hl7 (4 + j) (by omega) (by omega), hapres (4 + j) (by omega)]
    show (if 4 + j = CBC_SRV_POS then s
      else if CBC_PAYLOAD_POS ≤ 4 + j ∧ 4 + j < CBC_PAYLOAD_POS + p.length then
        p.getD (4 + j - CBC_PAYLOAD_POS) 0
      else 0) = p.getD j 0
    have h3 : CBC_SRV_POS = 3 := rfl
    have h4 : CBC_PAYLOAD_POS = 4 := rfl
    rw [h3, h4, if_neg (by omega), if_pos (by omega)]
    have hidx : 4 + j - 4 = j := by omega
    rw [hidx]
  have core := cbc_roundtrip_frame
    (cbc_pack_link (cbc_pack_address (mkTestReq c s p)) tx0).1 c s p rx0
    hl2 hl3 (by omega) hl5 hflenR hmux hsrvb hpayR hl8
  have hxm : (cbc_send_pkt pkt0 tx0).2.2 =
      ⟨IOC_VIRTUAL_UART,
        (List.range (cbc_pack_link (cbc_pack_address (mkTestReq c s p)) tx0).1.link_len).map
          (cbc_pack_link (cbc_pack_address (mkTestReq c s p)) tx0).1.buf⟩ := by
    simp only [cbc_send_pkt]
    rw [hpkt]
    have h0 : (mkTestReq c s p).link_len = 0 := rfl
    rw [if_pos h0]
  rw [hxm]
  exact ⟨rfl, core.1, core.2⟩

/-- A concrete empty configuration and packet for witnesses. -/
def cfg0 : CbcConfig := ⟨[], [], [], []⟩

def pktC1 : CbcPkt := ⟨mkTestReq 2 7 [17, 34, 51], 0, 0, 0, 0, 0, cfg0⟩

theorem claim_C1_roundtrip_witness :
    (2 : Nat) ≤ CBC_MUX_MASK ∧ 1 + [17, 34, 51].length ≤ CBC_MAX_SERVICE_SIZE ∧
    pktC1.req = mkTestReq 2 7 [17, 34, 51] ∧
    ((cbc_send_pkt pktC1 0).2.2.ch = IOC_VIRTUAL_UART ∧
    (cbc_copy_to_ring (cbc_send_pkt pktC1 0).2.2.data ⟨0, 0, fun _ => 0⟩).1 = 0 ∧
    ∃ d : CbcRequest,
      (cbc_unpack_link ⟨(cbc_copy_to_ring (cbc_send_pkt pktC1 0).2.2.data
          ⟨0, 0, fun _ => 0⟩).2, 0, 0, []⟩).emitted = [d] ∧
      d.buf CBC_SRV_POS = 7 ∧
      (∀ j < [17, 34, 51].length, d.buf (CBC_PAYLOAD_POS + j) = [17, 34, 51].getD j 0) ∧
      ∀ pkt : CbcPkt, pkt.req = d →
        ∃ pkt', cbc_rx_handler_mux pkt = some pkt' ∧ pkt'.req.id = 2) :=
  ⟨by decide, by decide, rfl,
    claim_C1_roundtrip 2 7 [17, 34, 51] 0 0 pktC1 (by decide) (by decide) rfl⟩

/-! ### Heartbeat (claim C6) -/

/-- The state value `cbc_update_heartbeat` computes from a heartbeat command
(active/standby/initial map to 1, everything else to 0). -/
def hbStat (cmd : Nat) : Nat :=
  if cmd = CBC_HB_ACTIVE ∨ cmd = CBC_HB_STANDBY ∨ cmd = CBC_HB_INITIAL then 1 else 0

theorem cbc_update_heartbeat_eq (pkt : CbcPkt) (cmd sa : Nat) :
    cbc_update_heartbeat pkt cmd sa =
      if hbStat cmd ≠ pkt.hb_state then
        { pkt with
          qtype := CBC_QUEUE_T_TX
          req := { pkt.req with rtype := CBC_REQ_T_SOC, buf := upd pkt.req.buf 0 (hbStat cmd) }
          hb_state := hbStat cmd }
      else pkt := by
  simp only [cbc_update_heartbeat, hbStat]

/-- C6: `cbc_update_heartbeat` maps the active/standby/initial commands to
state 1 and every other command to state 0 (`hbStat`); it synthesizes a
SoC-state-update request (tx queue, SoC request type, new state in the first
buffer byte, new state stored in `hb_state`) exactly when the computed state
differs from the stored `hb_state`, and otherwise changes nothing; in
particular, from the inactive default state, two consecutive ACTIVE commands
produce exactly one synthesis and the second call changes no state. -/
theorem claim_C6_heartbeat :
    (∀ (pkt : CbcPkt) (cmd sa : Nat),
      (cbc_update_heartbeat pkt cmd sa).hb_state = hbStat cmd) ∧
    (∀ (pkt : CbcPkt) (cmd sa : Nat),
      (hbStat cmd ≠ pkt.hb_state →
        (cbc_update_heartbeat pkt cmd sa).qtype = CBC_QUEUE_T_TX ∧
        (cbc_update_heartbeat pkt cmd sa).req.rtype = CBC_REQ_T_SOC ∧
        (cbc_update_heartbeat pkt cmd sa).req.buf 0 = hbStat cmd) ∧
      (hbStat cmd = pkt.hb_state → cbc_update_heartbeat pkt cmd sa = pkt)) ∧
    (∀ (pkt : CbcPkt) (sa sa2 : Nat), pkt.hb_state = 0 →
      (cbc_update_heartbeat pkt CBC_HB_ACTIVE sa).qtype = CBC_QUEUE_T_TX ∧
      (cbc_update_heartbeat pkt CBC_HB_ACTIVE sa).req.rtype = CBC_REQ_T_SOC ∧
      (cbc_update_heartbeat pkt CBC_HB_ACTIVE sa).req.buf 0 = 1 ∧
      (cbc_update_heartbeat pkt CBC_HB_ACTIVE sa).hb_state = 1 ∧
      cbc_update_heartbeat (cbc_update_heartbeat pkt CBC_HB_ACTIVE sa)
          CBC_HB_ACTIVE sa2 =
        cbc_update_heartbeat pkt CBC_HB_ACTIVE sa) := by
  have hact : hbStat CBC_HB_ACTIVE = 1 := rfl
  refine ⟨?_, ?_, ?_⟩
  · intro pkt cmd sa
    rw [cbc_update_heartbeat_eq]
    by_cases h : hbStat cmd ≠ pkt.hb_state
    · rw [if_pos h]
    · rw [if_neg h]
      push_neg at h
      exact h.symm
  · intro pkt cmd sa
    constructor
    · intro h
      rw [cbc_update_heartbeat_eq, if_pos h]
      exact ⟨rfl, rfl,
        show upd pkt.req.buf 0 (hbStat cmd) 0 = hbStat cmd from upd_same _ _ _⟩
    · intro h
      rw [cbc_update_heartbeat_eq, if_neg (by omega)]
  · intro pkt sa sa2 h0
    have h1 : cbc_update_heartbeat pkt CBC_HB_ACTIVE sa =
        { pkt with
          qtype := CBC_QUEUE_T_TX
          req := { pkt.req with rtype := CBC_REQ_T_SOC, buf := upd pkt.req.buf 0 1 }
          hb_state := 1 } := by
      rw [cbc_update_heartbeat_eq, if_pos (by omega), hact]
    rw [h1]
    refine ⟨rfl, rfl,
      show upd pkt.req.buf 0 1 0 = (1 : Nat) from upd_same _ _ _, rfl, ?_⟩
    rw [cbc_update_heartbeat_eq, if_neg (by dsimp only; omega)]

def pktC6 : CbcPkt := ⟨mkTestReq 1 2 [], 0, 0, 0, 0, 0, cfg0⟩

theorem claim_C6_heartbeat_witness :
    (hbStat 3 = pktC6.hb_state ∧ cbc_update_heartbeat pktC6 3 0 = pktC6) ∧
    (pktC6.hb_state = 0 ∧
      ((cbc_update_heartbeat pktC6 CBC_HB_ACTIVE 0).qtype = CBC_QUEUE_T_TX ∧
       (cbc_update_heartbeat pktC6 CBC_HB_ACTIVE 0).req.rtype = CBC_REQ_T_SOC ∧
       (cbc_update_heartbeat pktC6 CBC_HB_ACTIVE 0).req.buf 0 = 1 ∧
       (cbc_update_heartbeat pktC6 CBC_HB_ACTIVE 0).hb_state = 1 ∧
       cbc_update_heartbeat (cbc_update_heartbeat pktC6 CBC_HB_ACTIVE 0)
           CBC_HB_ACTIVE 0 =
         cbc_update_heartbeat pktC6 CBC_HB_ACTIVE 0)) :=
  ⟨⟨by decide, (claim_C6_heartbeat.2.1 pktC6 3 0).2 (by decide)⟩,
   ⟨rfl, claim_C6_heartbeat.2.2 pktC6 0 0 rfl⟩⟩

/-! ### Oversized outgoing payload (claim C8) -/

theorem cbc_send_pkt_frame (pkt : CbcPkt) (tx : Nat) (h0 : pkt.req.link_len = 0) :
    cbc_send_pkt pkt tx =
      ({ pkt with req := (cbc_pack_link (cbc_pack_address pkt.req) tx).1 },
        (cbc_pack_link (cbc_pack_address pkt.req) tx).2,
        ⟨IOC_VIRTUAL_UART,
          (List.range (cbc_pack_link (cbc_pack_address pkt.req) tx).1.link_len).map
            (cbc_pack_link (cbc_pack_address pkt.req) tx).1.buf⟩) := by
  simp only [cbc_send_pkt]
  rw [if_pos h0]

/-- C8: sending a packet with `link_len = 0` whose `srv_len` exceeds the
maximum service size transmits no frame bytes (the xmit carries zero bytes),
leaves `link_len` at 0 and the transmit sequence counter unchanged, and keeps
`srv_len` intact. -/
theorem claim_C8_oversized (pkt : CbcPkt) (tx : Nat)
    (h0 : pkt.req.link_len = 0) (hov : pkt.req.srv_len > CBC_MAX_SERVICE_SIZE) :
    (cbc_send_pkt pkt tx).2.2.data = [] ∧
    (cbc_send_pkt pkt tx).1.req.link_len = 0 ∧
    (cbc_send_pkt pkt tx).2.1 = tx ∧
    (cbc_send_pkt pkt tx).1.req.srv_len = pkt.req.srv_len := by
  obtain ⟨_, _, _, hasrv, halink, _⟩ := cbc_pack_address_spec pkt.req
  have habort : cbc_pack_link (cbc_pack_address pkt.req) tx =
      (cbc_pack_address pkt.req, tx) := by
    unfold cbc_pack_link
    rw [if_pos (by rw [hasrv]; exact hov)]
  rw [cbc_send_pkt_frame pkt tx h0, habort]
  refine ⟨?_, ?_, rfl, hasrv⟩
  · show (List.range (cbc_pack_address pkt.req).link_len).map _ = []
    rw [halink, h0]
    rfl
  · show (cbc_pack_address pkt.req).link_len = 0
    rw [halink, h0]

def pktC8 : CbcPkt :=
  ⟨⟨0, CBC_REQ_T_PROT, 33, 0, fun _ => 0⟩, 0, 0, 0, 0, 0, cfg0⟩

theorem claim_C8_oversized_witness :
    pktC8.req.link_len = 0 ∧ pktC8.req.srv_len > CBC_MAX_SERVICE_SIZE ∧
    ((cbc_send_pkt pktC8 5).2.2.data = [] ∧
     (cbc_send_pkt pktC8 5).1.req.link_len = 0 ∧
     (cbc_send_pkt pktC8 5).2.1 = 5 ∧
     (cbc_send_pkt pktC8 5).1.req.srv_len = pktC8.req.srv_len) :=
  ⟨rfl, by decide, claim_C8_oversized pktC8 5 rfl (by decide)⟩

/-! ### Wakeup reason (claim C7) -/

/-- The reason value `cbc_update_wakeup_reason` computes: the dedicated SoC
bit is forced when SoC is active (also clearing any stashed boot reason) and
cleared otherwise; the result is masked to 24 bits; a pending non-zero boot
reason (only possible with SoC inactive) overrides it entirely. -/
def wkReason (pkt : CbcPkt) (r : Nat) : Nat :=
  if pkt.soc_active ≠ 0 then (r ||| CBC_WK_RSN_SOC) &&& CBC_WK_RSN_ALL
  else if pkt.boot_reason ≠ 0 then pkt.boot_reason
  else (r &&& (0xFFFFFFFF ^^^ CBC_WK_RSN_SOC)) &&& CBC_WK_RSN_ALL

theorem cbc_update_wakeup_reason_eq (pkt : CbcPkt) (r tx : Nat) :
    cbc_update_wakeup_reason pkt r tx =
      cbc_send_pkt
        { pkt with
          boot_reason := if pkt.soc_active ≠ 0 then 0 else pkt.boot_reason
          reason := wkReason pkt r
          req := { pkt.req with
            id := IOC_NATIVE_LFCC
            srv_len := 4
            link_len := 0
            buf := upd (upd (upd (upd pkt.req.buf
              CBC_PAYLOAD_POS (wkReason pkt r % 256))
              (CBC_PAYLOAD_POS + 1) (wkReason pkt r >>> 8 % 256))
              (CBC_PAYLOAD_POS + 2) (wkReason pkt r >>> 16 % 256))
              CBC_SRV_POS CBC_SC_WK_RSN } } tx := by
  simp only [cbc_update_wakeup_reason, wkReason]
  by_cases hsoc : pkt.soc_active ≠ 0
  · rw [if_pos hsoc, if_pos hsoc]
    dsimp only
    rw [if_neg (by omega), if_pos hsoc]
  · rw [if_neg hsoc, if_neg hsoc]
    dsimp only
    by_cases hboot : pkt.boot_reason ≠ 0
    · rw [if_pos hboot, if_neg hsoc]
    · rw [if_neg hboot, if_neg hsoc]

/-- C7: `cbc_update_wakeup_reason pkt r` stores `wkReason pkt r` (SoC bit
forced/cleared per `soc_active`, 24-bit mask, pending boot reason override)
in `pkt.reason`, clears `boot_reason` exactly when SoC is active, writes the
three reason bytes little-endian into the payload, forces the lifecycle
channel id, writes the wakeup-reason service command with `srv_len = 4`, and
sends the packet immediately through the link-framing path to the virtual
UART. -/
theorem claim_C7_wakeup (pkt : CbcPkt) (r tx : Nat) :
    (cbc_update_wakeup_reason pkt r tx).1.reason = wkReason pkt r ∧
    (cbc_update_wakeup_reason pkt r tx).1.boot_reason =
      (if pkt.soc_active ≠ 0 then 0 else pkt.boot_reason) ∧
    (cbc_update_wakeup_reason pkt r tx).1.req.buf CBC_PAYLOAD_POS =
      wkReason pkt r % 256 ∧
    (cbc_update_wakeup_reason pkt r tx).1.req.buf (CBC_PAYLOAD_POS + 1) =
      wkReason pkt r >>> 8 % 256 ∧
    (cbc_update_wakeup_reason pkt r tx).1.req.buf (CBC_PAYLOAD_POS + 2) =
      wkReason pkt r >>> 16 % 256 ∧
    (cbc_update_wakeup_reason pkt r tx).1.req.buf CBC_SRV_POS = CBC_SC_WK_RSN ∧
    (cbc_update_wakeup_reason pkt r tx).1.req.id = IOC_NATIVE_LFCC ∧
    (cbc_update_wakeup_reason pkt r tx).1.req.srv_len = 4 ∧
    (cbc_update_wakeup_reason pkt r tx).2.2.ch = IOC_VIRTUAL_UART := by
  rw [cbc_update_wakeup_reason_eq, cbc_send_pkt_frame _ _ rfl]
  have h3 : CBC_SRV_POS = 3 := rfl
  have h4 : CBC_PAYLOAD_POS = 4 := rfl
  obtain ⟨ha2, hapres, haid, hasrv, halk, hart⟩ := cbc_pack_address_spec
    { pkt.req with
      id := IOC_NATIVE_LFCC
      srv_len := 4
      link_len := 0
      buf := upd (upd (upd (upd pkt.req.buf
        CBC_PAYLOAD_POS (wkReason pkt r % 256))
        (CBC_PAYLOAD_POS + 1) (wkReason pkt r >>> 8 % 256))
        (CBC_PAYLOAD_POS + 2) (wkReason pkt r >>> 16 % 256))
        CBC_SRV_POS CBC_SC_WK_RSN }
  obtain ⟨hl1, hl2, hl3, hl4, hl5, hl6, hl7, hl8, hl9, hl10, hl11⟩ := cbc_pack_link_spec
    (cbc_pack_address { pkt.req with
      id := IOC_NATIVE_LFCC
      srv_len := 4
      link_len := 0
      buf := upd (upd (upd (upd pkt.req.buf
        CBC_PAYLOAD_POS (wkReason pkt r % 256))
        (CBC_PAYLOAD_POS + 1) (wkReason pkt r >>> 8 % 256))
        (CBC_PAYLOAD_POS + 2) (wkReason pkt r >>> 16 % 256))
        CBC_SRV_POS CBC_SC_WK_RSN }) tx
    (by rw [hasrv]; exact (by decide : (4 : Nat) ≤ CBC_MAX_SERVICE_SIZE))
    (by rw [hasrv]; exact (by decide : (1 : Nat) ≤ 4))
  rw [hasrv] at hl7
  dsimp only at ha2 hapres haid hasrv hl7 hl9 hl10 ⊢
  refine ⟨rfl, rfl, ?_, ?_, ?_, ?_, ?_, ?_, rfl⟩
  · rw [hl7 CBC_PAYLOAD_POS (by omega) (by omega),
      hapres CBC_PAYLOAD_POS (by omega)]
    show upd _ CBC_SRV_POS CBC_SC_WK_RSN CBC_PAYLOAD_POS = _
    rw [upd_other _ _ _ _ (by omega), upd_other _ _ _ _ (by omega),
      upd_other _ _ _ _ (by omega), upd_same]
  · rw [hl7 (CBC_PAYLOAD_POS + 1) (by omega) (by omega),
      hapres (CBC_PAYLOAD_POS + 1) (by omega)]
    show upd _ CBC_SRV_POS CBC_SC_WK_RSN (CBC_PAYLOAD_POS + 1) = _
    rw [upd_other _ _ _ _ (by omega), upd_other _ _ _ _ (by omega), upd_same]
  · rw [hl7 (CBC_PAYLOAD_POS + 2) (by omega) (by omega),
      hapres (CBC_PAYLOAD_POS + 2) (by omega)]
    show upd _ CBC_SRV_POS CBC_SC_WK_RSN (CBC_PAYLOAD_POS + 2) = _
    rw [upd_other _ _ _ _ (by omega), upd_same]
  · rw [hl7 CBC_SRV_POS (by omega) (by omega),
      hapres CBC_SRV_POS (by omega)]
    exact upd_same _ _ _
  · rw [hl9, haid]
  · rw [hl10, hasrv]

/-! ### Signal table lemmas (claims C9, C10, C5) -/

theorem cbc_find_signal_none (id : Nat) (tbl : List CbcSignal)
    (h : ∀ e ∈ tbl, e.id ≠ id) : cbc_find_signal id tbl = none := by
  induction tbl with
  | nil => rfl
  | cons e rest ih =>
    simp only [cbc_find_signal]
    rw [if_neg (fun heq => h e (by simp) heq.symm)]
    exact ih (fun e' he' => h e' (by simp [he']))

theorem cbc_get_signal_len_unknown (id : Nat) (tbl : List CbcSignal)
    (h : ∀ e ∈ tbl, e.id ≠ id) : cbc_get_signal_len id tbl = 0 := by
  unfold cbc_get_signal_len
  rw [cbc_find_signal_none id tbl h]

theorem cbc_get_signal_len_found (id : Nat) (tbl : List CbcSignal) (e : CbcSignal)
    (h : cbc_find_signal id tbl = some e) :
    cbc_get_signal_len id tbl = (e.len + 7) / 8 := by
  unfold cbc_get_signal_len
  rw [h]

/-- `cbc_find_signal` after `cbc_disable_signal`: the first entry found for
`q` is the original one, with its flag forced inactive exactly when `q` is
the disabled id (both functions act on the first occurrence). -/
theorem cbc_find_disable_signal (x q : Nat) (tbl : List CbcSignal) :
    cbc_find_signal q (cbc_disable_signal x tbl) =
      match cbc_find_signal q tbl with
      | none => none
      | some e => some (if q = x then { e with flag := CBC_INACTIVE } else e) := by
  induction tbl with
  | nil => rfl
  | cons e rest ih =>
    simp only [cbc_disable_signal, cbc_find_signal]
    by_cases hx : x = e.id
    · rw [if_pos hx]
      simp only [cbc_find_signal]
      by_cases hq : q = e.id
      · rw [if_pos (show q = ({ e with flag := CBC_INACTIVE } : CbcSignal).id from hq),
          if_pos hq]
        dsimp only
        rw [if_pos (by omega : q = x)]
      · rw [if_neg (show ¬q = ({ e with flag := CBC_INACTIVE } : CbcSignal).id from hq),
          if_neg hq]
        cases hfind : cbc_find_signal q rest with
        | none => rfl
        | some e2 =>
          dsimp only
          rw [if_neg (by omega : ¬q = x)]
    · rw [if_neg hx]
      simp only [cbc_find_signal]
      by_cases hq : q = e.id
      · rw [if_pos hq, if_pos hq]
        dsimp only
        rw [if_neg (by omega : ¬q = x)]
      · rw [if_neg hq, if_neg hq]
        exact ih

/-- Folding `cbc_disable_signal` over a list of ids: lookup of `q` yields the
original entry, inactive exactly when `q` is among the disabled ids. -/
theorem cbc_find_foldl_disable (ids : List Nat) (q : Nat) (tbl : List CbcSignal) :
    cbc_find_signal q (ids.foldl (fun t id => cbc_disable_signal id t) tbl) =
      match cbc_find_signal q tbl with
      | none => none
      | some e => some (if q ∈ ids then { e with flag := CBC_INACTIVE } else e) := by
  induction ids generalizing tbl with
  | nil =>
    cases hfind : cbc_find_signal q tbl with
    | none => simp [hfind]
    | some e => simp [hfind]
  | cons x ids ih =>
    simp only [List.foldl_cons]
    rw [ih, cbc_find_disable_signal]
    cases hfind : cbc_find_signal q tbl with
    | none => rfl
    | some e =>
      dsimp only
      by_cases hqx : q = x <;> by_cases hqin : q ∈ ids <;> simp [hqx, hqin]

theorem cbc_find_group_none (id : Nat) (tbl : List CbcGroup)
    (h : ∀ e ∈ tbl, e.id ≠ id) : cbc_find_signal_group id tbl = none := by
  induction tbl with
  | nil => rfl
  | cons e rest ih =>
    simp only [cbc_find_signal_group]
    rw [if_neg (fun heq => h e (by simp) heq.symm)]
    exact ih (fun e2 he2 => h e2 (by simp [he2]))

theorem cbc_find_disable_group (x q : Nat) (tbl : List CbcGroup) :
    cbc_find_signal_group q (cbc_disable_signal_group x tbl) =
      match cbc_find_signal_group q tbl with
      | none => none
      | some e => some (if q = x then { e with flag := CBC_INACTIVE } else e) := by
  induction tbl with
  | nil => rfl
  | cons e rest ih =>
    simp only [cbc_disable_signal_group, cbc_find_signal_group]
    by_cases hx : x = e.id
    · rw [if_pos hx]
      simp only [cbc_find_signal_group]
      by_cases hq : q = e.id
      · rw [if_pos (show q = ({ e with flag := CBC_INACTIVE } : CbcGroup).id from hq),
          if_pos hq]
        dsimp only
        rw [if_pos (by omega : q = x)]
      · rw [if_neg (show ¬q = ({ e with flag := CBC_INACTIVE } : CbcGroup).id from hq),
          if_neg hq]
        cases hfind : cbc_find_signal_group q rest with
        | none => rfl
        | some e2 =>
          dsimp only
          rw [if_neg (by omega : ¬q = x)]
    · rw [if_neg hx]
      simp only [cbc_find_signal_group]
      by_cases hq : q = e.id
      · rw [if_pos hq, if_pos hq]
        dsimp only
        rw [if_neg (by omega : ¬q = x)]
      · rw [if_neg hq, if_neg hq]
        exact ih

theorem cbc_find_foldl_disable_group (ids : List Nat) (q : Nat) (tbl : List CbcGroup) :
    cbc_find_signal_group q (ids.foldl (fun t id => cbc_disable_signal_group id t) tbl) =
      match cbc_find_signal_group q tbl with
      | none => none
      | some e => some (if q ∈ ids then { e with flag := CBC_INACTIVE } else e) := by
  induction ids generalizing tbl with
  | nil =>
    cases hfind : cbc_find_signal_group q tbl with
    | none => simp [hfind]
    | some e => simp [hfind]
  | cons x ids ih =>
    simp only [List.foldl_cons]
    rw [ih, cbc_find_disable_group]
    cases hfind : cbc_find_signal_group q tbl with
    | none => rfl
    | some e =>
      dsimp only
      by_cases hqx : q = x <;> by_cases hqin : q ∈ ids <;> simp [hqx, hqin]

/-! ### Multi-id invalidation (claim C9) -/

/-- The ids listed in a multi-id invalidation payload: the second payload
byte is the count, followed by little-endian 16-bit ids. -/
def invalIds (pkt : CbcPkt) : List Nat :=
  (List.range (pkt.req.buf (CBC_PAYLOAD_POS + 1))).map
    (fun i => pkt.req.buf (CBC_PAYLOAD_POS + (i * 2 + 2)) |||
      pkt.req.buf (CBC_PAYLOAD_POS + (i * 2 + 3)) <<< 8)

/-- C9 (amended): `cbc_set_invalidation` rejects (changing nothing) exactly
when `n * 2 + 2` is at least (not only when it exceeds) the maximum service
size; otherwise it marks each of the `n` referenced signal ids (signal
scope) or group ids (group scope) inactive in the corresponding table,
leaving lookups of unlisted ids and the other table untouched. -/
theorem claim_C9_invalidation (pkt : CbcPkt) :
    (pkt.req.buf (CBC_PAYLOAD_POS + 1) * 2 + 2 ≥ CBC_MAX_SERVICE_SIZE →
      cbc_set_invalidation pkt CBC_INVAL_T_SIGNAL = pkt ∧
      cbc_set_invalidation pkt CBC_INVAL_T_GROUP = pkt) ∧
    (pkt.req.buf (CBC_PAYLOAD_POS + 1) * 2 + 2 < CBC_MAX_SERVICE_SIZE →
      ((cbc_set_invalidation pkt CBC_INVAL_T_SIGNAL).cfg.cbc_grp_tbl =
          pkt.cfg.cbc_grp_tbl ∧
       (cbc_set_invalidation pkt CBC_INVAL_T_SIGNAL).req = pkt.req ∧
       ∀ q, cbc_find_signal q
            (cbc_set_invalidation pkt CBC_INVAL_T_SIGNAL).cfg.cbc_sig_tbl =
          match cbc_find_signal q pkt.cfg.cbc_sig_tbl with
          | none => none
          | some e =>
            some (if q ∈ invalIds pkt then { e with flag := CBC_INACTIVE } else e)) ∧
      ((cbc_set_invalidation pkt CBC_INVAL_T_GROUP).cfg.cbc_sig_tbl =
          pkt.cfg.cbc_sig_tbl ∧
       (cbc_set_invalidation pkt CBC_INVAL_T_GROUP).req = pkt.req ∧
       ∀ q, cbc_find_signal_group q
            (cbc_set_invalidation pkt CBC_INVAL_T_GROUP).cfg.cbc_grp_tbl =
          match cbc_find_signal_group q pkt.cfg.cbc_grp_tbl with
          | none => none
          | some e =>
            some (if q ∈ invalIds pkt then { e with flag := CBC_INACTIVE } else e))) := by
  constructor
  · intro hge
    constructor <;> (simp only [cbc_set_invalidation]; rw [if_pos hge])
  · intro hlt
    have hsig : cbc_set_invalidation pkt CBC_INVAL_T_SIGNAL =
        { pkt with cfg := { pkt.cfg with cbc_sig_tbl := ((invalIds pkt).foldl (fun t id => cbc_disable_signal id t) pkt.cfg.cbc_sig_tbl) } } := by
      simp only [cbc_set_invalidation, invalIds]
      rw [if_neg (by omega), if_pos trivial]
    have hgrp : cbc_set_invalidation pkt CBC_INVAL_T_GROUP =
        { pkt with cfg := { pkt.cfg with cbc_grp_tbl := ((invalIds pkt).foldl (fun t id => cbc_disable_signal_group id t) pkt.cfg.cbc_grp_tbl) } } := by
      simp only [cbc_set_invalidation, invalIds]
      rw [if_neg (by omega), if_neg (by decide), if_pos trivial]
    refine ⟨⟨by rw [hsig], by rw [hsig], ?_⟩, ⟨by rw [hgrp], by rw [hgrp], ?_⟩⟩
    · intro q
      rw [hsig]
      exact cbc_find_foldl_disable (invalIds pkt) q pkt.cfg.cbc_sig_tbl
    · intro q
      rw [hgrp]
      exact cbc_find_foldl_disable_group (invalIds pkt) q pkt.cfg.cbc_grp_tbl

/-- A packet whose invalidation payload lists 15 ids (so `n*2+2 = 32` equals
the maximum service size exactly) including signal id 1, over a table with
signal 1 active. -/
def pktC9 : CbcPkt :=
  ⟨⟨0, CBC_REQ_T_PROT, 32, 0,
      fun i => if i = CBC_PAYLOAD_POS + 1 then 15
        else if i = CBC_PAYLOAD_POS + 2 then 1 else 0⟩,
    0, 0, 0, 0, 0, ⟨[⟨1, 8, CBC_ACTIVE⟩], [], [], []⟩⟩

/-- C9 (counterexample to the claim as stated): with `n = 15` the quantity
`n * 2 + 2 = 32` does not exceed the maximum service size (32), and signal
id 1 is listed, yet `cbc_set_invalidation` rejects the request and marks
nothing inactive — signal 1 stays active. -/
theorem claim_C9_invalidation_counterexample :
    ¬(pktC9.req.buf (CBC_PAYLOAD_POS + 1) * 2 + 2 > CBC_MAX_SERVICE_SIZE) ∧
    (1 : Nat) ∈ invalIds pktC9 ∧
    cbc_find_signal 1 pktC9.cfg.cbc_sig_tbl = some ⟨1, 8, CBC_ACTIVE⟩ ∧
    (cbc_set_invalidation pktC9 CBC_INVAL_T_SIGNAL).cfg = pktC9.cfg ∧
    cbc_find_signal 1
        (cbc_set_invalidation pktC9 CBC_INVAL_T_SIGNAL).cfg.cbc_sig_tbl =
      some ⟨1, 8, CBC_ACTIVE⟩ ∧
    CBC_ACTIVE ≠ CBC_INACTIVE := by
  refine ⟨by decide, by decide, by decide, ?_, ?_, by decide⟩
  · have h := (claim_C9_invalidation pktC9).1 (by decide)
    rw [h.1]
  · have h := (claim_C9_invalidation pktC9).1 (by decide)
    rw [h.1]
    decide

/-- A packet listing a single id (1), with `n*2+2 = 4` well under the limit. -/
def pktC9b : CbcPkt :=
  ⟨⟨0, CBC_REQ_T_PROT, 8, 0,
      fun i => if i = CBC_PAYLOAD_POS + 1 then 1
        else if i = CBC_PAYLOAD_POS + 2 then 1 else 0⟩,
    0, 0, 0, 0, 0, ⟨[⟨1, 8, CBC_ACTIVE⟩, ⟨2, 4, CBC_ACTIVE⟩], [], [], []⟩⟩

theorem claim_C9_invalidation_witness :
    pktC9b.req.buf (CBC_PAYLOAD_POS + 1) * 2 + 2 < CBC_MAX_SERVICE_SIZE ∧
    (((cbc_set_invalidation pktC9b CBC_INVAL_T_SIGNAL).cfg.cbc_grp_tbl =
        pktC9b.cfg.cbc_grp_tbl ∧
      (cbc_set_invalidation pktC9b CBC_INVAL_T_SIGNAL).req = pktC9b.req ∧
      ∀ q, cbc_find_signal q
          (cbc_set_invalidation pktC9b CBC_INVAL_T_SIGNAL).cfg.cbc_sig_tbl =
        match cbc_find_signal q pktC9b.cfg.cbc_sig_tbl with
        | none => none
        | some e =>
          some (if q ∈ invalIds pktC9b then { e with flag := CBC_INACTIVE } else e)) ∧
     ((cbc_set_invalidation pktC9b CBC_INVAL_T_GROUP).cfg.cbc_sig_tbl =
        pktC9b.cfg.cbc_sig_tbl ∧
      (cbc_set_invalidation pktC9b CBC_INVAL_T_GROUP).req = pktC9b.req ∧
      ∀ q, cbc_find_signal_group q
          (cbc_set_invalidation pktC9b CBC_INVAL_T_GROUP).cfg.cbc_grp_tbl =
        match cbc_find_signal_group q pktC9b.cfg.cbc_grp_tbl with
        | none => none
        | some e =>
          some (if q ∈ invalIds pktC9b then { e with flag := CBC_INACTIVE } else e))) :=
  ⟨by decide, (claim_C9_invalidation pktC9b).2 (by decide)⟩

/-! ### Unknown signal ids in forwarding (claim C10) -/

/-- C10: `cbc_get_signal_len` returns 0 for an id absent from the signal
table and `ceil(bit_len / 8)` for a present one; consequently
`cbc_forward_signals`' entry loop treats an unknown entry as spanning exactly
2 bytes (the id alone) and advances its read offset by exactly 2 past it
(the always-accepting whitelist stub still counts the entry). -/
theorem claim_C10_unknown_signal :
    (∀ (id : Nat) (tbl : List CbcSignal),
      (∀ e ∈ tbl, e.id ≠ id) → cbc_get_signal_len id tbl = 0) ∧
    (∀ (id : Nat) (tbl : List CbcSignal) (e : CbcSignal),
      cbc_find_signal id tbl = some e →
      cbc_get_signal_len id tbl = (e.len + 7) / 8) ∧
    (∀ (cfg : CbcConfig) (payload : Nat → Nat) (i offset valids num : Nat),
      (∀ e ∈ cfg.cbc_sig_tbl, e.id ≠ payload offset ||| payload (offset + 1) <<< 8) →
      ¬valids < offset →
      offset + 2 + 1 ≤ CBC_MAX_SERVICE_SIZE →
      cbc_forward_loop cfg (i + 1) payload offset valids num =
        cbc_forward_loop cfg i payload (offset + 2) (valids + 2) (num + 1)) := by
  refine ⟨cbc_get_signal_len_unknown, cbc_get_signal_len_found, ?_⟩
  intro cfg payload i offset valids num hunk hv hmax
  have hlen0 : cbc_get_signal_len (payload offset ||| payload (offset + 1) <<< 8)
      cfg.cbc_sig_tbl = 0 := cbc_get_signal_len_unknown _ _ hunk
  simp only [cbc_forward_loop, wlist_verify_signal, hlen0]
  rw [if_pos trivial, if_neg hv,
    if_neg (show ¬offset + (0 + 2) + 1 > CBC_MAX_SERVICE_SIZE by omega)]

def cfgC10 : CbcConfig := ⟨[⟨9, 8, CBC_ACTIVE⟩], [], [], []⟩

theorem claim_C10_unknown_signal_witness :
    (∀ e ∈ cfgC10.cbc_sig_tbl,
      e.id ≠ (fun i => [1, 5, 0, 99].getD i 0) 1 |||
        (fun i => [1, 5, 0, 99].getD i 0) (1 + 1) <<< 8) ∧
    ¬(1 : Nat) < 1 ∧ 1 + 2 + 1 ≤ CBC_MAX_SERVICE_SIZE ∧
    cbc_forward_loop cfgC10 (0 + 1) (fun i => [1, 5, 0, 99].getD i 0) 1 1 0 =
      cbc_forward_loop cfgC10 0 (fun i => [1, 5, 0, 99].getD i 0) (1 + 2) (1 + 2) (0 + 1) :=
  ⟨by decide, by decide, by decide,
    claim_C10_unknown_signal.2.2 cfgC10 (fun i => [1, 5, 0, 99].getD i 0) 0 1 1 0
      (by decide) (by decide) (by decide)⟩

/-! ### Invalidation does not affect forwarding (claim C5) -/

theorem cbc_get_signal_len_disable (dId q : Nat) (tbl : List CbcSignal) :
    cbc_get_signal_len q (cbc_disable_signal dId tbl) = cbc_get_signal_len q tbl := by
  unfold cbc_get_signal_len
  rw [cbc_find_disable_signal]
  cases h : cbc_find_signal q tbl with
  | none => rfl
  | some e =>
    dsimp only
    by_cases hq : q = dId
    · rw [if_pos hq]
    · rw [if_neg hq]

theorem cbc_forward_loop_disable (dId : Nat) (cfg : CbcConfig) :
    ∀ (n : Nat) (payload : Nat → Nat) (offset valids num : Nat),
      cbc_forward_loop
          { cfg with cbc_sig_tbl := cbc_disable_signal dId cfg.cbc_sig_tbl }
          n payload offset valids num =
        cbc_forward_loop cfg n payload offset valids num := by
  intro n
  induction n with
  | zero => intro payload offset valids num; rfl
  | succ n ih =>
    intro payload offset valids num
    simp only [cbc_forward_loop]
    rw [cbc_get_signal_len_disable]
    split_ifs <;> first | rfl | rw [ih]

theorem cbc_send_pkt_congr (p q : CbcPkt) (tx : Nat) (h : p.req = q.req) :
    (cbc_send_pkt p tx).1.req = (cbc_send_pkt q tx).1.req ∧
    (cbc_send_pkt p tx).2 = (cbc_send_pkt q tx).2 := by
  simp only [cbc_send_pkt]
  rw [h]
  split_ifs <;> exact ⟨by first | rfl | exact h, rfl⟩

theorem cbc_send_pkt_congr_pair (p q : CbcPkt) (tx : Nat) (h : p.req = q.req) :
    ((cbc_send_pkt p tx).2.1, (some (cbc_send_pkt p tx).2.2 : Option CbcXmit)) =
      ((cbc_send_pkt q tx).2.1, some (cbc_send_pkt q tx).2.2) := by
  have hc := (cbc_send_pkt_congr p q tx h).2
  rw [congrArg Prod.fst hc, congrArg Prod.snd hc]

/-- C5 (amended): marking a signal id inactive has no effect at all on
multi-signal forwarding — the forwarded request and the transmission are
identical with and without the invalidation, because `cbc_forward_signals`
never consults the `flag` field (entry spans come from `cbc_get_signal_len`,
which ignores the flag, and the whitelist stub accepts every id), so the
invalidated entry is still included in the compacted output. -/
theorem claim_C5_invalidation (pkt : CbcPkt) (id tx : Nat) :
    (cbc_forward_signals { pkt with cfg :=
        { pkt.cfg with cbc_sig_tbl := cbc_disable_signal id pkt.cfg.cbc_sig_tbl } }
      tx).1.req = (cbc_forward_signals pkt tx).1.req ∧
    (cbc_forward_signals { pkt with cfg :=
        { pkt.cfg with cbc_sig_tbl := cbc_disable_signal id pkt.cfg.cbc_sig_tbl } }
      tx).2 = (cbc_forward_signals pkt tx).2 := by
  simp only [cbc_forward_signals]
  rw [cbc_forward_loop_disable]
  constructor
  · split_ifs <;>
      first
        | rfl
        | (refine (cbc_send_pkt_congr _ _ tx ?_).1
           rfl)
  · split_ifs <;>
      first
        | rfl
        | (refine cbc_send_pkt_congr_pair _ _ tx ?_
           rfl)


/-- A packet whose configuration has signal id 1 already invalidated
(`cbc_disable_signal 1`), and whose multi-signal payload holds one entry with
that very id (count byte 1; entry bytes 1, 0 for the little-endian id and one
value byte `0x42`); `link_len = 5` so the send transmits the service bytes. -/
def pktC5 : CbcPkt :=
  { req := ⟨2, CBC_REQ_T_PROT, 5, 5, fun i => [0, 0, 0, 0, 1, 1, 0, 0x42].getD i 0⟩
    qtype := 0
    hb_state := 0
    soc_active := 0
    reason := 0
    boot_reason := 0
    cfg := ⟨cbc_disable_signal 1 [⟨1, 8, CBC_ACTIVE⟩], [], [], []⟩ }

/-- C5 counterexample to the claim as stated: in `pktC5` the table entry for
signal id 1 carries `flag = CBC_INACTIVE` (it was marked inactive by
`cbc_disable_signal`), yet `cbc_forward_signals` does NOT exclude that entry
from the compacted output — the transmitted service bytes are the multi-signal
command, the count byte 1, and the full entry `1, 0, 0x42` for the
invalidated id. -/
theorem claim_C5_invalidation_counterexample :
    cbc_find_signal 1 pktC5.cfg.cbc_sig_tbl = some ⟨1, 8, CBC_INACTIVE⟩ ∧
    (cbc_forward_signals pktC5 0).2.2 =
      some ⟨2, [CBC_SD_MULTI_SIGNAL, 1, 1, 0, 0x42]⟩ :=
  ⟨rfl, rfl⟩

end IocCbc
